import Mathlib

/-!
Verification of the session/dispatcher core of a Telegram chat-bot
(`googlebot.py`).  Python strings are modelled as `List Char`; the mutable
per-user `context.user_data` dict is modelled as an explicit `Session`
record; collaborator calls (AI inference, transcription) are modelled by
an oracle recording whether each call succeeds.  Timestamps are integers.
-/

namespace GoogleBot

/-- Python strings, modelled as lists of unicode scalar values. -/
abbrev Str := List Char

/-- Coerce a Lean string literal to the `Str` model. -/
def str (s : String) : Str := s.data

/-- Characters stripped by Python's `str.strip()` (ASCII whitespace). -/
def pyIsSpace (c : Char) : Bool :=
  c = ' ' || c = '\t' || c = '\n' || c = '\r' || c = '\x0b' || c = '\x0c'

/-- Python `str.lstrip()`. -/
def pyLStrip (s : Str) : Str := s.dropWhile pyIsSpace

/-- Python `str.rstrip()`. -/
def pyRStrip (s : Str) : Str := (s.reverse.dropWhile pyIsSpace).reverse

/-- Python `str.strip()`. -/
def pyStrip (s : Str) : Str := pyRStrip (pyLStrip s)

/-- Python `str.lower()` on one character, for the alphabets the bot uses
(ASCII latin and the Cyrillic block А-Я plus Ё). -/
def pyLowerChar (c : Char) : Char :=
  if 'A' ≤ c && c ≤ 'Z' then Char.ofNat (c.toNat + 32)
  else if 'А' ≤ c && c ≤ 'Я' then Char.ofNat (c.toNat + 32)
  else if c = 'Ё' then 'ё'
  else c

/-- Python `str.lower()`. -/
def pyLower (s : Str) : Str := s.map pyLowerChar

/-- Worker for `pySplit`; the fuel always suffices because every step
consumes at least one character of the remaining input. -/
def pySplitAux (sep : Str) : Nat → Str → Str → List Str
  | 0, rest, acc => [acc.reverse ++ rest]
  | _ + 1, [], acc => [acc.reverse]
  | fuel + 1, c :: cs, acc =>
    if sep.isPrefixOf (c :: cs) then
      acc.reverse :: pySplitAux sep fuel (List.drop sep.length (c :: cs)) []
    else
      pySplitAux sep fuel cs (c :: acc)

/-- Python `s.split(sep)` for a non-empty separator. -/
def pySplit (sep s : Str) : List Str := pySplitAux sep (s.length + 1) s []

/-- `line[i:i+n]` slices taken by `range(0, len(line), n)`;
models the hard-split loop of `split_message`. -/
def chunksOf (n : Nat) : Nat → Str → List Str
  | 0, s => if s = [] then [] else [s]
  | _ + 1, [] => []
  | fuel + 1, s => s.take n :: chunksOf n fuel (s.drop n)

-- Constants from the top of googlebot.py.

/-- `MEMORY_TIMEOUT = 5 * 60` (seconds). -/
def MEMORY_TIMEOUT : Int := 5 * 60

/-- `MAX_RETRIES = 2`. -/
def MAX_RETRIES : Nat := 2

/-- `IMAGE_CONTEXT_TIMEOUT = 300` (seconds). -/
def IMAGE_CONTEXT_TIMEOUT : Int := 300

/-- `MAX_MESSAGE_LENGTH = 4000`. -/
def MAX_MESSAGE_LENGTH : Nat := 4000

/-- `MAX_ALBUM_PHOTOS = 10`. -/
def MAX_ALBUM_PHOTOS : Nat := 10

/-- Inner line loop of `split_message` (googlebot.py 664-672): state is
`(parts, current_part)`. -/
def smLine (max_length : Nat) (st : List Str × Str) (line : Str) : List Str × Str :=
  let parts := st.1
  let current := st.2
  if line.length > max_length then
    (parts ++ chunksOf max_length line.length line, current)
  else if current.length + line.length + 1 > max_length then
    (parts ++ [pyStrip current], line ++ str "\n")
  else
    (parts, current ++ line ++ str "\n")

/-- Outer paragraph loop of `split_message` (googlebot.py 658-677). -/
def smPara (max_length : Nat) (st : List Str × Str) (para : Str) : List Str × Str :=
  let parts := st.1
  let current := st.2
  if para.length > max_length then
    let st1 := if current ≠ [] then (parts ++ [pyStrip current], ([] : Str)) else (parts, current)
    (pySplit (str "\n") para).foldl (smLine max_length) st1
  else if current.length + para.length + 2 > max_length then
    (parts ++ [pyStrip current], para ++ str "\n\n")
  else
    (parts, current ++ para ++ str "\n\n")

/-- `split_message(text, max_length)` (googlebot.py 647-682): splits a long
text on paragraph boundaries, then line boundaries, then hard character
chunks; boundary chunks are whitespace-stripped. -/
def split_message (text : Str) (max_length : Nat) : List Str :=
  if text = [] then [[]]
  else if text.length ≤ max_length then [text]
  else
    let st := (pySplit (str "\n\n") text).foldl (smPara max_length) ([], [])
    let parts := if pyStrip st.2 ≠ [] then st.1 ++ [pyStrip st.2] else st.1
    if parts ≠ [] then parts else [text.take max_length]

/-! ## Session store (`context.user_data`) -/

/-- `user_data['photo_task']`: ordered photo list, origin message id,
creation time (photos are opaque byte-buffer identifiers). -/
structure PhotoTask where
  photos : List Nat
  message_id : Nat
  timestamp : Int
deriving DecidableEq

/-- `user_data['active_image']`: single image and creation time. -/
structure ActiveImage where
  photo_bytes : Nat
  timestamp : Int
deriving DecidableEq

/-- The per-user `context.user_data` dict.  `none` models an absent key;
the conversation handle (`chat_session`) is an opaque identifier. -/
structure Session where
  chat_session : Option Nat
  last_activity : Option Int
  model : Option Str
  image_model : Option Str
  mode : Option Str
  photo_task : Option PhotoTask
  active_image : Option ActiveImage
deriving DecidableEq

/-- `get_model_key(context)` (googlebot.py 406-408). -/
def get_model_key (s : Session) : Str := s.model.getD (str "flash")

/-- `reset_session(context)` (googlebot.py 412-435): installs a freshly
created chat object (`fresh` stands for the new opaque handle), stamps
`last_activity`, pops `mode` and `active_image`.  Nothing else is touched. -/
def reset_session (fresh : Nat) (now : Int) (s : Session) : Session :=
  { s with
    chat_session := some fresh
    last_activity := some now
    mode := none
    active_image := none }

/-- `get_or_create_session(context)` (googlebot.py 438-449): recreates the
chat when the key is absent or idle longer than `MEMORY_TIMEOUT`, else
touches `last_activity`; returns the session and the handle it yields. -/
def get_or_create_session (fresh : Nat) (now : Int) (s : Session) : Session × Nat :=
  let last := s.last_activity.getD 0
  if s.chat_session = none || decide (now - last > MEMORY_TIMEOUT) then
    (reset_session fresh now s, fresh)
  else
    ({ s with last_activity := some now }, s.chat_session.getD 0)

/-! ## Mode dispatcher (`handle_message` and its helpers) -/

/-- Outcome oracle for the collaborator calls a dispatch may make:
`true` means the call returned normally, `false` that it raised. -/
structure Oracle where
  edit_ok : Bool
  translate_ok : Bool
deriving DecidableEq

/-- An incoming private-chat text message (access already checked). -/
structure Msg where
  text : Str
  replyToPhoto : Bool
  botUser : Option Str
deriving DecidableEq

/-- The externally visible action a dispatch emits. -/
inductive Action where
  | editDone (prompt : Str)
  | editFailed (prompt : Str)
  | dataLost
  | exitAck (prevMode : Str)
  | setTranslateMode
  | instantTranslate (t : Str)
  | setYoutubeMode
  | instantYoutube (url : Str)
  | setModelPro
  | setModelFlash
  | resetCtx (prevMode : Option Str)
  | setImageGen
  | setImageGenPro
  | setImageGenFlash
  | instantImageGen (prompt : Str)
  | setAwaitEditPhoto
  | replyPhotoAnalysis (prompt : Str)
  | imageGen (prompt : Str)
  | youtubeSummary (url : Str)
  | translated (t : Str)
  | translateFailed (t : Str)
  | chatMultimodal (t : Str)
  | chatText (t : Str)
deriving DecidableEq

/-- `_process_photo_edit_prompt` (googlebot.py 1944-2008).  Fires only in
mode `awaiting_edit_prompt`.  Missing `photo_task`: pop mode, report data
lost.  Present: the whole text is the edit prompt; on success pop `mode`
and `photo_task`, on failure pop only `mode`. -/
def _process_photo_edit_prompt (o : Oracle) (s : Session) (text : Str) :
    Option (Session × Action) :=
  if s.mode ≠ some (str "awaiting_edit_prompt") then none
  else if s.photo_task = none then
    some ({ s with mode := none }, Action.dataLost)
  else if o.edit_ok then
    some ({ s with mode := none, photo_task := none }, Action.editDone text)
  else
    some ({ s with mode := none }, Action.editFailed text)

/-- The exit keywords of `_process_exit_commands`. -/
def EXIT_WORDS : List Str := [str "выход", str "exit", str "quit", str "stop"]

/-- `_process_exit_commands` (googlebot.py 2011-2036): clears an active
mode on an exit keyword; reports unhandled (`none`) when no mode is set. -/
def _process_exit_commands (s : Session) (lower_text : Str) :
    Option (Session × Action) :=
  if lower_text ∉ EXIT_WORDS then none
  else
    match s.mode with
    | none => none
    | some m => some ({ s with mode := none }, Action.exitAck m)

/-- Tail of `_process_fast_commands` from the model switches on
(googlebot.py 2144-2222); reached when the earlier checks fall through. -/
def _process_fast_commands_rest2 (fresh : Nat) (now : Int) (s : Session)
    (stripped lower_text : Str) : Option (Session × Action) :=
  if lower_text = str "п" || lower_text = str "про" || lower_text = str "pro" then
    some (reset_session fresh now { s with model := some (str "pro") }, Action.setModelPro)
  else if lower_text = str "ф" then
    some (reset_session fresh now { s with model := some (str "flash") }, Action.setModelFlash)
  else if stripped = str "." then
    some (reset_session fresh now s, Action.resetCtx s.mode)
  else if lower_text = str "к" || lower_text = str "картинка" then
    some ({ s with mode := some (str "image_gen") }, Action.setImageGen)
  else if lower_text = str "к про" || lower_text = str "к pro" then
    some ({ s with image_model := some (str "pro"), mode := some (str "image_gen") },
      Action.setImageGenPro)
  else if lower_text = str "к флеш" || lower_text = str "к flash" then
    some ({ s with image_model := some (str "flash"), mode := some (str "image_gen") },
      Action.setImageGenFlash)
  else if (str "к ").isPrefixOf lower_text || (str "картинка ").isPrefixOf lower_text then
    let prompt :=
      if (str "картинка ").isPrefixOf lower_text then pyStrip (stripped.drop 9)
      else pyStrip (stripped.drop 2)
    some (s, Action.instantImageGen prompt)
  else if lower_text = str "р" || lower_text = str "редактировать" || lower_text = str "edit" then
    some ({ s with mode := some (str "awaiting_edit_photo") }, Action.setAwaitEditPhoto)
  else none

/-- The youtube checks of `_process_fast_commands` (googlebot.py
2091-2142); reached when the translate checks fall through. -/
def _process_fast_commands_rest (fresh : Nat) (now : Int) (s : Session)
    (stripped lower_text : Str) : Option (Session × Action) :=
  if lower_text = str "ю" || lower_text = str "ютуб" || lower_text = str "youtube" then
    some ({ s with mode := some (str "youtube_mode") }, Action.setYoutubeMode)
  else if (str "ю ").isPrefixOf lower_text || (str "ютуб ").isPrefixOf lower_text
      || (str "youtube ").isPrefixOf lower_text then
    let url :=
      if (str "youtube ").isPrefixOf lower_text then pyStrip (stripped.drop 8)
      else if (str "ютуб ").isPrefixOf lower_text then pyStrip (stripped.drop 5)
      else pyStrip (stripped.drop 2)
    if url ≠ [] then some (s, Action.instantYoutube url)
    else _process_fast_commands_rest2 fresh now s stripped lower_text
  else _process_fast_commands_rest2 fresh now s stripped lower_text

/-- `_process_fast_commands` (googlebot.py 2039-2222): shorthand commands.
A translate shorthand with trailing text yields an instant one-shot
translation without setting `mode`; the bare token sets `mode=translate`.
The `п`/`ф` model switches and the bare `.` call `reset_session`. -/
def _process_fast_commands (fresh : Nat) (now : Int) (s : Session)
    (stripped lower_text : Str) : Option (Session × Action) :=
  if lower_text = str "пр" || lower_text = str "перевод" || lower_text = str "translate" then
    some ({ s with mode := some (str "translate") }, Action.setTranslateMode)
  else if (str "пр ").isPrefixOf lower_text || (str "перевод ").isPrefixOf lower_text
      || (str "translate ").isPrefixOf lower_text then
    let t :=
      if (str "translate ").isPrefixOf lower_text then pyStrip (stripped.drop 10)
      else if (str "перевод ").isPrefixOf lower_text then pyStrip (stripped.drop 8)
      else pyStrip (stripped.drop 3)
    if t ≠ [] then some (s, Action.instantTranslate t)
    else _process_fast_commands_rest fresh now s stripped lower_text
  else _process_fast_commands_rest fresh now s stripped lower_text

/-- `_process_reply_to_photo` (googlebot.py 2225-2285): a reply to a photo
is an image-analysis request; the session is not mutated. -/
def _process_reply_to_photo (s : Session) (m : Msg) : Option (Session × Action) :=
  if m.replyToPhoto then
    let prompt := if pyStrip m.text ≠ [] then pyStrip m.text
      else str "Опиши подробно что на этом изображении"
    some (s, Action.replyPhotoAnalysis prompt)
  else none

/-- `_process_translation_mode` (googlebot.py 2288-2313): translates the
text; pops `mode` when the call returns, keeps it when the call raises. -/
def _process_translation_mode (o : Oracle) (s : Session) (text : Str) :
    Session × Action :=
  if o.translate_ok then ({ s with mode := none }, Action.translated text)
  else (s, Action.translateFailed text)

/-- `text.replace('@'+bot_username, '').strip()` of googlebot.py 2454,
guarded by the truthiness of `bot_username`; the multi-character replace
is modelled by a fuelled scanner. -/
def pyReplaceAux (pat repl : Str) : Nat → Str → Str
  | 0, rest => rest
  | _ + 1, [] => []
  | fuel + 1, c :: cs =>
    if pat ≠ [] && pat.isPrefixOf (c :: cs) then
      repl ++ pyReplaceAux pat repl fuel (List.drop pat.length (c :: cs))
    else
      c :: pyReplaceAux pat repl fuel cs

/-- Python `s.replace(pat, repl)` for a non-empty pattern. -/
def pyReplace (pat repl s : Str) : Str := pyReplaceAux pat repl (s.length + 1) s

/-- The `clean_text` computed on the plain-chat path (googlebot.py 2454). -/
def cleanText (m : Msg) : Str :=
  match m.botUser with
  | some bu => if bu ≠ [] then pyStrip (pyReplace ('@' :: bu) [] m.text) else m.text
  | none => m.text

/-- `handle_message` (googlebot.py 2368-2502) for an authorized private
chat: the dispatcher.  Stages in priority order: photo-edit prompt, exit
keywords, fast commands, reply-to-photo, one-shot mode consumption
(`image_gen`, `youtube_mode` pop the mode before the call;
`translate` pops it only on success), then the ordinary chat turn with
active-image expiry and lazy conversation-handle recreation. -/
def handle_message (fresh : Nat) (now : Int) (o : Oracle) (s : Session)
    (m : Msg) : Session × Action :=
  let stripped := pyStrip m.text
  let lower_text := pyLower stripped
  match _process_photo_edit_prompt o s m.text with
  | some r => r
  | none =>
  match _process_exit_commands s lower_text with
  | some r => r
  | none =>
  match _process_fast_commands fresh now s stripped lower_text with
  | some r => r
  | none =>
  match _process_reply_to_photo s m with
  | some r => r
  | none =>
  if s.mode = some (str "image_gen") then
    ({ s with mode := none }, Action.imageGen (pyStrip m.text))
  else if s.mode = some (str "youtube_mode") then
    ({ s with mode := none }, Action.youtubeSummary m.text)
  else if s.mode = some (str "translate") then
    _process_translation_mode o s m.text
  else
    let s1 :=
      match s.active_image with
      | some img =>
        if now - img.timestamp > IMAGE_CONTEXT_TIMEOUT then
          { s with active_image := none }
        else s
      | none => s
    match s1.active_image with
    | some _ => (s1, Action.chatMultimodal (cleanText m))
    | none =>
      ((get_or_create_session fresh now s1).1, Action.chatText (cleanText m))

/-! ## Album coalescer (`handle_photo` media-group branch, `process_album_delayed`) -/

/-- An entry of the process-wide `pending_albums` dict. -/
structure AlbumEntry where
  photos : List Nat
  caption : Str
  user_id : Nat
  chat_id : Nat
  message_id : Nat
  timestamp : Int
deriving DecidableEq

/-- `pending_albums`, keyed by `media_group_id`. -/
abbrev Albums := List (Nat × AlbumEntry)

/-- Dict write `pending_albums[g] = e`. -/
def albumSet (g : Nat) (e : AlbumEntry) : Albums → Albums
  | [] => [(g, e)]
  | (g', e') :: rest => if g' = g then (g, e) :: rest else (g', e') :: albumSet g e rest

/-- Dict read `pending_albums.get(g)`. -/
def albumGet (g : Nat) : Albums → Option AlbumEntry
  | [] => none
  | (g', e') :: rest => if g' = g then some e' else albumGet g rest

/-- `pending_albums.pop(g)`. -/
def albumPop (g : Nat) : Albums → Albums
  | [] => []
  | (g', e') :: rest => if g' = g then rest else (g', e') :: albumPop g rest

/-- A photo message that is part of a media group. -/
structure Fragment where
  gid : Nat
  photo : Nat
  caption : Str
  user_id : Nat
  chat_id : Nat
  message_id : Nat
  time : Int
deriving DecidableEq

/-- The media-group branch of `handle_photo` (googlebot.py 1460-1491):
the first fragment of a group creates the buffer and schedules the single
delayed flush (returned boolean); later fragments append (while under
`MAX_ALBUM_PHOTOS`) and backfill an empty caption, scheduling nothing. -/
def handle_photo_media_group (a : Albums) (f : Fragment) : Albums × Bool :=
  match albumGet f.gid a with
  | none =>
    (albumSet f.gid
      { photos := [f.photo], caption := f.caption, user_id := f.user_id,
        chat_id := f.chat_id, message_id := f.message_id, timestamp := f.time } a,
      true)
  | some e =>
    let e1 := if e.photos.length < MAX_ALBUM_PHOTOS
      then { e with photos := e.photos ++ [f.photo] } else e
    let e2 := if e1.caption = [] && f.caption ≠ [] then { e1 with caption := f.caption } else e1
    (albumSet f.gid e2 a, false)

/-- The buffer hand-off of `process_album_delayed` (googlebot.py
1710-1723): after the quiet period, a missing group is a no-op; otherwise
the entry is popped and processed. -/
def process_album_delayed (a : Albums) (gid : Nat) : Albums × Option AlbumEntry :=
  match albumGet gid a with
  | none => (a, none)
  | some e => (albumPop gid a, some e)

/-! ## Retry policy of the persistent-conversation send path -/

/-- What one `chat.send_message` attempt does: return a response with the
given text (`[]` for a missing/empty text), time out, or raise. -/
inductive SendOutcome where
  | success (text : Str)
  | timeout
  | exc (msg : Str)
deriving DecidableEq

/-- The error `send_with_retry` finally raises. -/
inductive SendErr where
  | emptyResp
  | timeoutErr
  | exc (msg : Str)
deriving DecidableEq

/-- Python's substring test `pat in s`. -/
def strContains (pat : Str) : Str → Bool
  | [] => pat.isPrefixOf []
  | c :: cs => pat.isPrefixOf (c :: cs) || strContains pat cs

/-- `any(code in error_str for code in ['429', '503', '500'])`. -/
def isTransientCode (msg : Str) : Bool :=
  strContains (str "429") msg || strContains (str "503") msg || strContains (str "500") msg

/-- The attempt loop of `send_with_retry` (googlebot.py 713-750), from
attempt number `attempt`; also records the sleeps performed, in order.
Empty responses and timeouts retry after a fixed 2-second sleep; an
exception whose text carries a transient status code retries after
`(attempt + 1) * 3` seconds; anything else propagates at once. -/
def sendAttempts (outcomes : Nat → SendOutcome) (retries : Nat) (attempt : Nat)
    (sleeps : List Nat) : (Str ⊕ SendErr) × List Nat :=
  match outcomes attempt with
  | SendOutcome.success t =>
    if pyStrip t ≠ [] then (Sum.inl t, sleeps)
    else if h : attempt < retries then
      sendAttempts outcomes retries (attempt + 1) (sleeps ++ [2])
    else (Sum.inr SendErr.emptyResp, sleeps)
  | SendOutcome.timeout =>
    if _h : attempt < retries then
      sendAttempts outcomes retries (attempt + 1) (sleeps ++ [2])
    else (Sum.inr SendErr.timeoutErr, sleeps)
  | SendOutcome.exc msg =>
    if _h : isTransientCode msg ∧ attempt < retries then
      sendAttempts outcomes retries (attempt + 1) (sleeps ++ [(attempt + 1) * 3])
    else (Sum.inr (SendErr.exc msg), sleeps)
termination_by retries + 1 - attempt
decreasing_by all_goals omega

/-- `send_with_retry(chat, text, retries=MAX_RETRIES)` (googlebot.py
713-750), with the per-attempt outcomes supplied by `outcomes`. -/
def send_with_retry (outcomes : Nat → SendOutcome) (retries : Nat := MAX_RETRIES) :
    (Str ⊕ SendErr) × List Nat :=
  sendAttempts outcomes retries 0 []

/-- The album entry created for the first fragment of a group
(googlebot.py 1471-1479). -/
def albumEntryOf (f : Fragment) : AlbumEntry :=
  ⟨[f.photo], f.caption, f.user_id, f.chat_id, f.message_id, f.time⟩

/-! ## Text formatter (`escape_html`, `format_for_telegram`) -/

/-- One `str.replace` pass for a single-character pattern. -/
def replaceChar (c : Char) (new : Str) : Str → Str
  | [] => []
  | x :: xs => if x = c then new ++ replaceChar c new xs else x :: replaceChar c new xs

/-- `escape_html` (googlebot.py 508-513): `&`, `<`, `>` in that order. -/
def escape_html (s : Str) : Str :=
  replaceChar '>' (str "&gt;") (replaceChar '<' (str "&lt;") (replaceChar '&' (str "&amp;") s))

/-- Python regex `\w` for the alphabets the bot handles (ASCII latin,
digits, underscore, Cyrillic). -/
def pyIsWord (c : Char) : Bool :=
  c.isAlpha || c.isDigit || c = '_' || ('Ѐ' ≤ c && c ≤ 'ӿ')

/-- Splits a text into `(line, hadNewline)` units. -/
def toLineUnits : Nat → Str → List (Str × Bool)
  | 0, s => if s = [] then [] else [(s, false)]
  | _ + 1, [] => []
  | fuel + 1, s =>
    let line := s.takeWhile (fun c => c ≠ '\n')
    let rest := s.dropWhile (fun c => c ≠ '\n')
    match rest with
    | [] => [(line, false)]
    | _ :: rest' => (line, true) :: toLineUnits fuel rest'

/-- A line matching `^\|.+\|$` of the table pattern (googlebot.py 578). -/
def isTableLine (l : Str) : Bool :=
  3 ≤ l.length && l.head? = some '|' && l.getLast? = some '|'

/-- Reassembles a line unit (the matched table text includes the `\n?`). -/
def unitText (u : Str × Bool) : Str := u.1 ++ (if u.2 then ['\n'] else [])

/-- Reassembles a run of line units. -/
def unitsText (us : List (Str × Bool)) : Str := (us.map unitText).foldr (· ++ ·) []

/-- `table.strip("\n")` (googlebot.py 534). -/
def stripNl (s : Str) : Str :=
  ((s.dropWhile (· = '\n')).reverse.dropWhile (· = '\n')).reverse

/-- Finds the first `dd` pair on the current line (the lazy
`(.*?)` of `(\*\*|__)(.*?)\1` cannot cross a newline). -/
def findPair2 (d : Char) : Nat → Str → Option (Str × Str)
  | 0, _ => none
  | _ + 1, [] => none
  | fuel + 1, c :: cs =>
    if c = d && cs.head? = some d then some ([], cs.tail)
    else if c = '\n' then none
    else (findPair2 d fuel cs).map (fun p => (c :: p.1, p.2))

/-- `re.sub(r'(\*\*|__)(.*?)\1', r'\2', value)` of `normalize_cell`. -/
def remPair2Aux : Nat → Str → Str
  | 0, s => s
  | _ + 1, [] => []
  | fuel + 1, c :: cs =>
    if c = '*' && cs.head? = some '*' then
      match findPair2 '*' (cs.tail.length + 1) cs.tail with
      | some (content, rest) => content ++ remPair2Aux fuel rest
      | none => c :: remPair2Aux fuel cs
    else if c = '_' && cs.head? = some '_' then
      match findPair2 '_' (cs.tail.length + 1) cs.tail with
      | some (content, rest) => content ++ remPair2Aux fuel rest
      | none => c :: remPair2Aux fuel cs
    else c :: remPair2Aux fuel cs

/-- Finds the first `d` on the current line (for `(\*|_)(.*?)\1`). -/
def findPair1 (d : Char) : Nat → Str → Option (Str × Str)
  | 0, _ => none
  | _ + 1, [] => none
  | fuel + 1, c :: cs =>
    if c = d then some ([], cs)
    else if c = '\n' then none
    else (findPair1 d fuel cs).map (fun p => (c :: p.1, p.2))

/-- `re.sub(r'(\*|_)(.*?)\1', r'\2', value)` of `normalize_cell`. -/
def remPair1Aux : Nat → Str → Str
  | 0, s => s
  | _ + 1, [] => []
  | fuel + 1, c :: cs =>
    if c = '*' || c = '_' then
      match findPair1 c (cs.length + 1) cs with
      | some (content, rest) => content ++ remPair1Aux fuel rest
      | none => c :: remPair1Aux fuel cs
    else c :: remPair1Aux fuel cs

/-- `re.sub(r'\s+', ' ', value)` of `normalize_cell`. -/
def collapseWsAux : Nat → Str → Str
  | 0, s => s
  | _ + 1, [] => []
  | fuel + 1, c :: cs =>
    if pyIsSpace c then ' ' :: collapseWsAux fuel (cs.dropWhile pyIsSpace)
    else c :: collapseWsAux fuel cs

/-- `normalize_cell` (googlebot.py 537-543). -/
def normalize_cell (v : Str) : Str :=
  let v1 := remPair2Aux (v.length + 1) v
  let v2 := remPair1Aux (v1.length + 1) v1
  let v3 := replaceChar '`' [] v2
  pyStrip (collapseWsAux (v3.length + 1) v3)

/-- `re.fullmatch(r":?-+:?", p)` (googlebot.py 548). -/
def sepCell (p : Str) : Bool :=
  let p1 := if p.head? = some ':' then p.tail else p
  let dashes := p1.takeWhile (· = '-')
  let p2 := p1.dropWhile (· = '-')
  dashes ≠ [] && (p2 = [] || p2 = [':'])

/-- `[normalize_cell(p) for p in line.strip().strip("|").split("|")]`. -/
def rowCells (line : Str) : List Str :=
  let core := ((pyStrip line).dropWhile (· = '|')).reverse.dropWhile (· = '|') |>.reverse
  (pySplit ['|'] core).map normalize_cell

/-- `cell.ljust(width)`. -/
def ljust (w : Nat) (s : Str) : Str := s ++ List.replicate (w - s.length) ' '

/-- `sep.join(parts)`. -/
def intercalateStr (sep : Str) : List Str → Str
  | [] => []
  | [x] => x
  | x :: xs => x ++ sep ++ intercalateStr sep xs

/-- `wrap_table` (googlebot.py 533-575): normalizes and column-aligns a
pipe table, escapes the cells, and wraps the block in `<pre>`. -/
def wrap_table (tbl : Str) : Str :=
  let lines := (pySplit ['\n'] tbl).filter (fun l => pyStrip l ≠ [])
  let rows := (lines.map rowCells).filter (fun r => ¬ r.all sepCell)
  if rows = [] then str "<pre></pre>"
  else
    let cols := (rows.map List.length).foldr Nat.max 0
    let padded := rows.map (fun r => r ++ List.replicate (cols - r.length) [])
    let widths := (List.range cols).map (fun i =>
      (padded.map (fun r => (r.getD i []).length)).foldr Nat.max 0)
    let aligned := padded.map (fun r =>
      intercalateStr (str " | ") ((r.zip widths).map (fun p => escape_html (ljust p.2 p.1))))
    str "<pre>" ++ intercalateStr ['\n'] aligned ++ str "</pre>"

/-- `f"%%TABLEBLOCK{i}%%"`. -/
def placeholderStr (i : Nat) : Str := str "%%TABLEBLOCK" ++ (Nat.repr i).data ++ str "%%"

/-- The `re.sub(table_pattern, wrap_table, text)` pass (googlebot.py
577-579): replaces each maximal run of table lines (with the newlines the
`\n?` consumed) by a placeholder, collecting the rendered blocks. -/
def tablePassAux : Nat → List (Str × Bool) → List Str → Str × List Str
  | 0, units, blocks => (unitsText units, blocks)
  | _ + 1, [], blocks => ([], blocks)
  | fuel + 1, u :: rest, blocks =>
    if isTableLine u.1 then
      let run := (u :: rest).takeWhile (fun v => isTableLine v.1)
      let after := (u :: rest).dropWhile (fun v => isTableLine v.1)
      let block := wrap_table (stripNl (unitsText run))
      let ph := placeholderStr blocks.length
      let r := tablePassAux fuel after (blocks ++ [block])
      (ph ++ r.1, r.2)
    else
      let r := tablePassAux fuel rest blocks
      (unitText u ++ r.1, r.2)

/-- The table pass over a whole text. -/
def tablePass (s : Str) : Str × List Str :=
  let units := toLineUnits (s.length + 1) s
  tablePassAux (units.length + 1) units []

/-- A piece of the `re.split(r'(```…```|`…`)', text)` decomposition. -/
inductive Seg where
  | txt (s : Str)
  | code (s : Str)
deriving DecidableEq

/-- Finds the first closing triple backtick (lazy `[\s\S]*?`). -/
def findFence : Nat → Str → Option (Str × Str)
  | 0, _ => none
  | _ + 1, [] => none
  | fuel + 1, c :: cs =>
    if c = '`' && cs.head? = some '`' && cs.tail.head? = some '`' then
      some ([], cs.tail.tail)
    else (findFence fuel cs).map (fun p => (c :: p.1, p.2))

/-- Finds the closing backtick of an inline code span (`[^`\n]+` cannot
cross a newline or a backtick). -/
def findInline : Nat → Str → Option (Str × Str)
  | 0, _ => none
  | _ + 1, [] => none
  | fuel + 1, c :: cs =>
    if c = '`' then some ([], cs)
    else if c = '\n' then none
    else (findInline fuel cs).map (fun p => (c :: p.1, p.2))

/-- `re.split(r'(```[\s\S]*?```|`[^`\n]+`)', text)` (googlebot.py 583) as
an alternating segment list. -/
def codeSplitAux : Nat → Str → Str → List Seg
  | 0, s, acc => [Seg.txt (acc ++ s)]
  | _ + 1, [], acc => [Seg.txt acc]
  | fuel + 1, c :: cs, acc =>
    if c = '`' && cs.head? = some '`' && cs.tail.head? = some '`' then
      match findFence (cs.tail.tail.length + 1) cs.tail.tail with
      | some (content, rest) =>
        Seg.txt acc :: Seg.code (str "```" ++ content ++ str "```") :: codeSplitAux fuel rest []
      | none => codeSplitAux fuel cs (acc ++ [c])
    else if c = '`' then
      match findInline (cs.length + 1) cs with
      | some (content, rest) =>
        if content ≠ [] then
          Seg.txt acc :: Seg.code ('`' :: (content ++ ['`'])) :: codeSplitAux fuel rest []
        else codeSplitAux fuel cs (acc ++ [c])
      | none => codeSplitAux fuel cs (acc ++ [c])
    else codeSplitAux fuel cs (acc ++ [c])

/-- The code branch of the formatter (googlebot.py 587-606): fenced blocks
via `re.match(r'```(\w*)\n?([\s\S]*?)```', part)`, inline code via
`part[1:-1]`; the content is HTML-escaped in every branch. -/
def renderCode (tok : Str) : Str :=
  if (str "```").isPrefixOf tok then
    let body := tok.drop 3
    let lang := body.takeWhile pyIsWord
    let rest1 := body.dropWhile pyIsWord
    let rest2 := if rest1.head? = some '\n' then rest1.tail else rest1
    match findFence (rest2.length + 1) rest2 with
    | some (code, _) =>
      let c := escape_html (pyRStrip code)
      if lang ≠ [] then
        str "<pre><code class=\x22language-" ++ lang ++ str "\x22>" ++ c ++ str "</code></pre>"
      else str "<pre>" ++ c ++ str "</pre>"
    | none => str "<pre>" ++ escape_html (body.take (body.length - 3)) ++ str "</pre>"
  else
    str "<code>" ++ escape_html ((tok.drop 1).take (tok.length - 2)) ++ str "</code>"

/-- One attempt of `^\s*#{1,6}\s+(.*?)\s*$` at a line start; `\s` may
consume newlines, the heading body stops at the line end with trailing
whitespace stripped. -/
def tryHeading (s : Str) : Option (Str × Str) :=
  let r1 := s.dropWhile pyIsSpace
  let hashes := r1.takeWhile (· = '#')
  if hashes.length < 1 || 6 < hashes.length then none
  else
    let r2 := r1.dropWhile (· = '#')
    let w2 := r2.takeWhile pyIsSpace
    if w2 = [] then none
    else
      let r3 := r2.dropWhile pyIsSpace
      let line := r3.takeWhile (fun c => c ≠ '\n')
      some (pyRStrip line, r3.dropWhile (fun c => c ≠ '\n'))

/-- `re.sub(r'^\s*#{1,6}\s+(.*?)\s*$', r'<b>\1</b>\n', …, re.M)`
(googlebot.py 615). -/
def headAux : Bool → Nat → Str → Str
  | _, 0, s => s
  | _, _ + 1, [] => []
  | atLS, fuel + 1, c :: cs =>
    if atLS then
      match tryHeading (c :: cs) with
      | some (content, rest) => str "<b>" ++ content ++ str "</b>\n" ++ headAux false fuel rest
      | none => c :: headAux (c = '\n') fuel cs
    else c :: headAux (c = '\n') fuel cs

/-- Finds the first `**` (the bold body may span newlines and contain
single asterisks). -/
def findBoldClose : Nat → Str → Option (Str × Str)
  | 0, _ => none
  | _ + 1, [] => none
  | fuel + 1, c :: cs =>
    if c = '*' && cs.head? = some '*' then some ([], cs.tail)
    else (findBoldClose fuel cs).map (fun p => (c :: p.1, p.2))

/-- `re.sub(r'\*\*([^*]+(?:\*(?!\*)[^*]*)*)\*\*', r'<b>\1</b>', …)`
(googlebot.py 619): the body must be non-empty and not start with `*`. -/
def boldAux : Nat → Str → Str
  | 0, s => s
  | _ + 1, [] => []
  | fuel + 1, c :: cs =>
    if c = '*' && cs.head? = some '*' then
      match findBoldClose (cs.tail.length + 1) cs.tail with
      | some (content, rest) =>
        if content ≠ [] && content.head? ≠ some '*' then
          str "<b>" ++ content ++ str "</b>" ++ boldAux fuel rest
        else c :: boldAux fuel cs
      | none => c :: boldAux fuel cs
    else c :: boldAux fuel cs

/-- `re.sub(r'(?<!d)d([^d\n]+)d(?!d)', r'<i>\1</i>', …)` for the italic
delimiter `d` (`*` at googlebot.py 622, `_` at 623); `prev` carries the
look-behind character. -/
def italAux (d : Char) : Option Char → Nat → Str → Str
  | _, 0, s => s
  | _, _ + 1, [] => []
  | prev, fuel + 1, c :: cs =>
    if c = d && prev ≠ some d then
      let content := cs.takeWhile (fun x => x ≠ d && x ≠ '\n')
      let rest := cs.dropWhile (fun x => x ≠ d && x ≠ '\n')
      if content ≠ [] && rest.head? = some d && rest.tail.head? ≠ some d then
        str "<i>" ++ content ++ str "</i>" ++ italAux d (some d) fuel rest.tail
      else c :: italAux d (some c) fuel cs
    else c :: italAux d (some c) fuel cs

/-- Finds the first `~~` on the current line (`(.*?)` of the
strikethrough rule cannot cross a newline). -/
def findStrikeClose : Nat → Str → Option (Str × Str)
  | 0, _ => none
  | _ + 1, [] => none
  | fuel + 1, c :: cs =>
    if c = '~' && cs.head? = some '~' then some ([], cs.tail)
    else if c = '\n' then none
    else (findStrikeClose fuel cs).map (fun p => (c :: p.1, p.2))

/-- `re.sub(r'~~(.*?)~~', r'<s>\1</s>', …)` (googlebot.py 626). -/
def strikeAux : Nat → Str → Str
  | 0, s => s
  | _ + 1, [] => []
  | fuel + 1, c :: cs =>
    if c = '~' && cs.head? = some '~' then
      match findStrikeClose (cs.tail.length + 1) cs.tail with
      | some (content, rest) => str "<s>" ++ content ++ str "</s>" ++ strikeAux fuel rest
      | none => c :: strikeAux fuel cs
    else c :: strikeAux fuel cs

/-- One attempt of `^\s*[\*\-]\s+` at a line start; the boolean reports
whether the maximal `\s+` run ended with a newline (so that the position
after the match is again a line start). -/
def tryBullet (s : Str) : Option (Str × Bool) :=
  let r1 := s.dropWhile pyIsSpace
  match r1 with
  | [] => none
  | b :: r2 =>
    if b = '*' || b = '-' then
      let w2 := r2.takeWhile pyIsSpace
      if w2 = [] then none
      else some (r2.dropWhile pyIsSpace, w2.getLast? = some '\n')
    else none

/-- `re.sub(r'^\s*[\*\-]\s+', '• ', …, re.M)` (googlebot.py 629). -/
def bulletsAux : Bool → Nat → Str → Str
  | _, 0, s => s
  | _, _ + 1, [] => []
  | atLS, fuel + 1, c :: cs =>
    if atLS then
      match tryBullet (c :: cs) with
      | some (rest, ls) => str "• " ++ bulletsAux ls fuel rest
      | none => c :: bulletsAux (c = '\n') fuel cs
    else c :: bulletsAux (c = '\n') fuel cs

/-- One attempt of `\[([^\]]+)\]\(([^)]+)\)` just after a `[`: returns
the link text, the URL, and the remainder after the closing parenthesis. -/
def tryLink (cs : Str) : Option (Str × Str × Str) :=
  let txt := cs.takeWhile (fun x => x ≠ ']')
  let r1 := cs.dropWhile (fun x => x ≠ ']')
  if txt ≠ [] && r1.head? = some ']' && r1.tail.head? = some '(' then
    let r2 := r1.tail.tail
    let url := r2.takeWhile (fun x => x ≠ ')')
    let r3 := r2.dropWhile (fun x => x ≠ ')')
    if url ≠ [] && r3.head? = some ')' then some (txt, url, r3.tail)
    else none
  else none

/-- `re.sub(r'\[([^\]]+)\]\(([^)]+)\)', replace_link, …)` (googlebot.py
632-637); the URL has its quotes replaced by `&quot;`. -/
def linksAux : Nat → Str → Str
  | 0, s => s
  | _ + 1, [] => []
  | fuel + 1, c :: cs =>
    if c = '[' then
      match tryLink cs with
      | some (txt, url, rest) =>
        str "<a href=\x22" ++ replaceChar '\x22' (str "&quot;") url ++ str "\x22>" ++ txt ++
          str "</a>" ++ linksAux fuel rest
      | none => c :: linksAux fuel cs
    else c :: linksAux fuel cs

/-- The non-code branch of the formatter (googlebot.py 607-639): escape
first, then headings, bold, italics, strikethrough, bullets, links. -/
def formatFragment (s : Str) : Str :=
  let f0 := escape_html s
  let f1 := headAux true (f0.length + 1) f0
  let f2 := boldAux (f1.length + 1) f1
  let f3 := italAux '*' none (f2.length + 1) f2
  let f4 := italAux '_' none (f3.length + 1) f3
  let f5 := strikeAux (f4.length + 1) f4
  let f6 := bulletsAux true (f5.length + 1) f5
  linksAux (f6.length + 1) f6

/-- Renders one split segment. -/
def renderSeg : Seg → Str
  | Seg.txt s => formatFragment s
  | Seg.code s => renderCode s

/-- The final placeholder substitution loop (googlebot.py 642-643). -/
def replaceBlocks : Nat → List Str → Str → Str
  | _, [], r => r
  | i, b :: bs, r => replaceBlocks (i + 1) bs (pyReplace (placeholderStr i) b r)

/-- `format_for_telegram` (googlebot.py 516-644). -/
def format_for_telegram (text : Str) : Str :=
  if text = [] then []
  else
    let tp := tablePass text
    let segs := codeSplitAux (tp.1.length + 1) tp.1 []
    let body := (segs.map renderSeg).foldr (· ++ ·) []
    replaceBlocks 0 tp.2 body

/-- The tag windows that may legitimately follow a `<` in formatter
output; `safeB` checks every `<` opens one of them. -/
def W2 : List Str := [str "b>", str "/b>", str "i>", str "/i>", str "s>", str "/s>",
  str "pre", str "/pre", str "code", str "/code", str "a ", str "/a>"]

/-- Safety predicate: every `<` in the string is immediately followed by
one of the `W2` tag windows. -/
def safeB : Str → Bool
  | [] => true
  | c :: r => (c ≠ '<' || W2.any (fun w => w.isPrefixOf r)) && safeB r

/-! ## Supporting lemmas -/

theorem safeB_cons_iff {c : Char} {r : Str} :
    safeB (c :: r) = true ↔ (c ≠ '<' ∨ ∃ w ∈ W2, w <+: r) ∧ safeB r = true := by
  simp [safeB, List.isPrefixOf_iff_prefix]

theorem safeB_cons_of_ne {c : Char} {r : Str} (hc : c ≠ '<') (hr : safeB r = true) :
    safeB (c :: r) = true :=
  safeB_cons_iff.2 ⟨Or.inl hc, hr⟩

theorem safeB_tail {c : Char} {r : Str} (h : safeB (c :: r) = true) : safeB r = true :=
  (safeB_cons_iff.1 h).2

theorem safeB_append {a b : Str} (ha : safeB a = true) (hb : safeB b = true) :
    safeB (a ++ b) = true := by
  induction a with
  | nil => simpa using hb
  | cons c r ih =>
    have h1 := safeB_tail ha
    rw [List.cons_append]
    refine safeB_cons_iff.2 ⟨?_, ih h1⟩
    rcases (safeB_cons_iff.1 ha).1 with h | ⟨w, hw, hp⟩
    · exact Or.inl h
    · exact Or.inr ⟨w, hw, hp.trans (List.prefix_append r b)⟩

theorem safeB_of_ltFree {s : Str} (h : ∀ c ∈ s, c ≠ '<') : safeB s = true := by
  induction s with
  | nil => rfl
  | cons c r ih =>
    exact safeB_cons_of_ne (h c (by simp)) (ih fun x hx => h x (by simp [hx]))

theorem safeB_append_right {a b : Str} (h : safeB (a ++ b) = true) : safeB b = true := by
  induction a with
  | nil => simpa using h
  | cons c r ih => exact ih (safeB_tail h)

theorem safeB_drop {s : Str} (h : safeB s = true) (n : Nat) : safeB (s.drop n) = true := by
  induction n generalizing s with
  | zero => simpa using h
  | succ k ih =>
    cases s with
    | nil => rfl
    | cons c r => exact ih (safeB_tail h)

theorem safeB_dropWhile {s : Str} (p : Char → Bool) (h : safeB s = true) :
    safeB (s.dropWhile p) = true := by
  induction s with
  | nil => rfl
  | cons c r ih =>
    rw [List.dropWhile_cons]
    split
    · exact ih (safeB_tail h)
    · exact h

theorem prefix_cases {w r z : Str} (h : w <+: r ++ z) :
    w <+: r ∨ ∃ w', w = r ++ w' ∧ w' <+: z := by
  rcases List.prefix_or_prefix_of_prefix h (List.prefix_append r z) with h' | h'
  · exact Or.inl h'
  · obtain ⟨w', hw'⟩ := h'
    obtain ⟨t, ht⟩ := h
    refine Or.inr ⟨w', hw'.symm, ⟨t, ?_⟩⟩
    have h008 : r ++ (w' ++ t) = r ++ z := by
      rw [← List.append_assoc, hw', ht]
    exact List.append_cancel_left h008

theorem safeB_cut {x : Str} {c : Char} {t : Str}
    (h : safeB (x ++ c :: t) = true) (hc : ∀ w ∈ W2, c ∉ w) : safeB x = true := by
  induction x with
  | nil => rfl
  | cons d xs ih =>
    rw [List.cons_append] at h
    have h1 : safeB (xs ++ c :: t) = true := safeB_tail h
    refine safeB_cons_iff.2 ⟨?_, ih h1⟩
    rcases (safeB_cons_iff.1 h).1 with hd | ⟨w, hw, hp⟩
    · exact Or.inl hd
    · rcases prefix_cases hp with h' | ⟨w', hw', hp'⟩
      · exact Or.inr ⟨w, hw, h'⟩
      · cases w' with
        | nil => exact Or.inr ⟨w, hw, by rw [hw', List.append_nil]⟩
        | cons e rest =>
          exfalso
          have he : e = c := by
            obtain ⟨t2, ht2⟩ := hp'
            simp at ht2
            exact ht2.1
          exact hc w hw (by rw [hw', he]; simp)

theorem safeB_no_script {s : Str} (h : safeB s = true) :
    ¬ ((str "<script>") <:+: s) := by
  rintro ⟨u, v, huv⟩
  induction u generalizing s with
  | nil =>
    rw [← huv] at h
    have h2 := (safeB_cons_iff.1 h).1
    rcases h2 with h2 | ⟨w, hw, hp⟩
    · exact h2 rfl
    · fin_cases hw <;> (obtain ⟨t2, ht2⟩ := hp; simp [str] at ht2)
  | cons c u' ih =>
    cases s with
    | nil => simp at huv
    | cons d ds =>
      simp only [List.cons_append, List.cons.injEq] at huv
      exact ih (safeB_tail h) huv.2

theorem mem_replaceChar {y : Char} {c : Char} {new : Str} {s : Str}
    (h : y ∈ replaceChar c new s) : y ∈ new ∨ (y ∈ s ∧ y ≠ c) := by
  induction s with
  | nil => simp [replaceChar] at h
  | cons x xs ih =>
    rw [replaceChar] at h
    split at h
    · rcases List.mem_append.1 h with h' | h'
      · exact Or.inl h'
      · rcases ih h' with h'' | ⟨h1, h2⟩
        · exact Or.inl h''
        · exact Or.inr ⟨by simp [h1], h2⟩
    · rcases List.mem_cons.1 h with h' | h'
      · subst h'
        rename_i hx
        exact Or.inr ⟨by simp, hx⟩
      · rcases ih h' with h'' | ⟨h1, h2⟩
        · exact Or.inl h''
        · exact Or.inr ⟨by simp [h1], h2⟩

theorem escape_html_ltFree (s : Str) : ∀ y ∈ escape_html s, y ≠ '<' ∧ y ≠ '>' := by
  intro y hy
  rw [escape_html] at hy
  rcases mem_replaceChar hy with h | ⟨h1, hgt⟩
  · simp [str] at h
    rcases h with rfl | rfl | rfl | rfl <;> exact ⟨by decide, by decide⟩
  · rcases mem_replaceChar h1 with h | ⟨_, hlt⟩
    · simp [str] at h
      rcases h with rfl | rfl | rfl | rfl <;> exact ⟨by decide, by decide⟩
    · exact ⟨hlt, hgt⟩

theorem albumGet_set_self (g : Nat) (e : AlbumEntry) (a : Albums) :
    albumGet g (albumSet g e a) = some e := by
  induction a with
  | nil => simp [albumSet, albumGet]
  | cons p rest ih =>
    obtain ⟨g', e'⟩ := p
    by_cases h : g' = g <;> simp [albumSet, albumGet, h, ih]

theorem albumSet_set (g : Nat) (e1 e2 : AlbumEntry) (a : Albums) :
    albumSet g e2 (albumSet g e1 a) = albumSet g e2 a := by
  induction a with
  | nil => simp [albumSet]
  | cons p rest ih =>
    obtain ⟨g', e'⟩ := p
    by_cases h : g' = g <;> simp [albumSet, h, ih]

theorem albumPop_set (g : Nat) (e : AlbumEntry) (a : Albums)
    (ha : albumGet g a = none) : albumPop g (albumSet g e a) = a := by
  induction a with
  | nil => simp [albumSet, albumPop]
  | cons p rest ih =>
    obtain ⟨g', e'⟩ := p
    by_cases h : g' = g
    · rw [albumGet, if_pos h] at ha
      exact absurd ha (by simp)
    · rw [albumGet, if_neg h] at ha
      simp [albumSet, albumPop, h, ih ha]

theorem album_first (a : Albums) (f : Fragment) (g : Nat)
    (hg : f.gid = g) (ha : albumGet g a = none) :
    handle_photo_media_group a f = (albumSet g (albumEntryOf f) a, true) := by
  rw [handle_photo_media_group, hg, ha]
  rfl

theorem album_step (a : Albums) (f : Fragment) (g : Nat) (e : AlbumEntry)
    (hg : f.gid = g) (ha : albumGet g a = some e)
    (hlen : e.photos.length < MAX_ALBUM_PHOTOS) :
    ∃ e2 : AlbumEntry, handle_photo_media_group a f = (albumSet g e2 a, false) ∧
      e2.photos = e.photos ++ [f.photo] := by
  rw [handle_photo_media_group, hg, ha]
  simp only [if_pos hlen]
  split
  · exact ⟨_, rfl, rfl⟩
  · exact ⟨_, rfl, rfl⟩

theorem fast_none_of_exit (fresh : Nat) (now : Int) (s : Session) (stripped : Str)
    (hl : pyLower stripped ∈ EXIT_WORDS) :
    _process_fast_commands fresh now s stripped (pyLower stripped) = none := by
  have hdot : ¬ (stripped = ['.']) := by
    intro h
    rw [h] at hl
    revert hl
    decide
  simp only [EXIT_WORDS, List.mem_cons, List.not_mem_nil, or_false] at hl
  rcases hl with h | h | h | h <;>
    rw [_process_fast_commands, h] <;>
    simp [_process_fast_commands_rest, _process_fast_commands_rest2, str, hdot]

theorem exit_none_of_no_mode (s : Session) (lt : Str) (hm : s.mode = none) :
    _process_exit_commands s lt = none := by
  rw [_process_exit_commands]
  split
  · rfl
  · rw [hm]

/-! ## Claim theorems -/

/-- C1, counterexample: the claim says `translate` mode is NOT cleared by a
consumed message, but dispatching one successfully translated message in
`translate` mode clears the mode (googlebot.py 2310 pops it). -/
theorem C1_counterexample :
    (handle_message 2 0 ⟨true, true⟩
        ⟨some 1, some 0, none, none, some (str "translate"), none, none⟩
        ⟨str "hello", false, none⟩).1.mode = none ∧
    (handle_message 2 0 ⟨true, true⟩
        ⟨some 1, some 0, none, none, some (str "translate"), none, none⟩
        ⟨str "hello", false, none⟩).2 = Action.translated (str "hello") := by
  decide

/-- C1 (amended): for a message that no earlier dispatch stage handles,
`image_gen` mode consumes it as the image prompt and clears the mode,
`youtube_mode` consumes it as the URL and clears the mode, and
`translate` mode consumes it as translation input, clearing the mode when
the translation call succeeds and keeping it only when the call raises. -/
theorem C1_mode_consumption (fresh : Nat) (now : Int) (o : Oracle) (s : Session) (m : Msg)
    (hfast : _process_fast_commands fresh now s (pyStrip m.text) (pyLower (pyStrip m.text)) = none)
    (hexit : _process_exit_commands s (pyLower (pyStrip m.text)) = none)
    (hreply : m.replyToPhoto = false) :
    (s.mode = some (str "image_gen") →
      handle_message fresh now o s m =
        ({ s with mode := none }, Action.imageGen (pyStrip m.text))) ∧
    (s.mode = some (str "youtube_mode") →
      handle_message fresh now o s m =
        ({ s with mode := none }, Action.youtubeSummary m.text)) ∧
    (s.mode = some (str "translate") →
      handle_message fresh now o s m =
        (if o.translate_ok then ({ s with mode := none }, Action.translated m.text)
        else (s, Action.translateFailed m.text))) := by
  refine ⟨fun hm => ?_, fun hm => ?_, fun hm => ?_⟩ <;>
    simp only [handle_message, _process_photo_edit_prompt, hm, hexit, hfast,
      _process_reply_to_photo, hreply, _process_translation_mode] <;>
    simp [str]

/-- C1 witness: the three mode-consumption conclusions at concrete inputs. -/
theorem C1_mode_consumption_witness :
    (handle_message 2 0 ⟨true, true⟩
        ⟨some 1, some 0, none, none, some (str "image_gen"), none, none⟩
        ⟨str "a cat", false, none⟩ =
      (⟨some 1, some 0, none, none, none, none, none⟩, Action.imageGen (str "a cat"))) ∧
    (handle_message 2 0 ⟨true, true⟩
        ⟨some 1, some 0, none, none, some (str "youtube_mode"), none, none⟩
        ⟨str "linky", false, none⟩ =
      (⟨some 1, some 0, none, none, none, none, none⟩, Action.youtubeSummary (str "linky"))) ∧
    (handle_message 2 0 ⟨true, true⟩
        ⟨some 1, some 0, none, none, some (str "translate"), none, none⟩
        ⟨str "hola", false, none⟩ =
      (⟨some 1, some 0, none, none, none, none, none⟩, Action.translated (str "hola"))) := by
  refine ⟨?_, ?_, ?_⟩
  · exact (C1_mode_consumption 2 0 ⟨true, true⟩
      ⟨some 1, some 0, none, none, some (str "image_gen"), none, none⟩
      ⟨str "a cat", false, none⟩ (by decide) (by decide) rfl).1 rfl
  · exact (C1_mode_consumption 2 0 ⟨true, true⟩
      ⟨some 1, some 0, none, none, some (str "youtube_mode"), none, none⟩
      ⟨str "linky", false, none⟩ (by decide) (by decide) rfl).2.1 rfl
  · exact (C1_mode_consumption 2 0 ⟨true, true⟩
      ⟨some 1, some 0, none, none, some (str "translate"), none, none⟩
      ⟨str "hola", false, none⟩ (by decide) (by decide) rfl).2.2 rfl

/-- C2, counterexample: the claim says a failed edit clears BOTH `mode` and
the pending photo task, but on failure the code clears only `mode`
(googlebot.py 2006); the photo task survives. -/
theorem C2_counterexample :
    (handle_message 2 0 ⟨false, true⟩
        ⟨some 1, some 0, none, none, some (str "awaiting_edit_prompt"), some ⟨[42], 9, 0⟩, none⟩
        ⟨str "make it red", false, none⟩).1.photo_task = some ⟨[42], 9, 0⟩ ∧
    (handle_message 2 0 ⟨false, true⟩
        ⟨some 1, some 0, none, none, some (str "awaiting_edit_prompt"), some ⟨[42], 9, 0⟩, none⟩
        ⟨str "make it red", false, none⟩).1.mode = none ∧
    (handle_message 2 0 ⟨false, true⟩
        ⟨some 1, some 0, none, none, some (str "awaiting_edit_prompt"), some ⟨[42], 9, 0⟩, none⟩
        ⟨str "make it red", false, none⟩).2 = Action.editFailed (str "make it red") := by
  decide

/-- C2 (amended): in mode `awaiting_edit_prompt` with a pending photo task
the whole text is the edit instruction; a successful edit clears both
`mode` and `photo_task`, a failed edit clears only `mode` and keeps
`photo_task`; without a pending task the mode is cleared and a data-lost
condition is reported, with no retry. -/
theorem C2_edit_prompt (fresh : Nat) (now : Int) (o : Oracle) (s : Session) (m : Msg)
    (hm : s.mode = some (str "awaiting_edit_prompt")) :
    (s.photo_task = none →
      handle_message fresh now o s m = ({ s with mode := none }, Action.dataLost)) ∧
    (∀ pt, s.photo_task = some pt →
      (o.edit_ok = true →
        handle_message fresh now o s m =
          ({ s with mode := none, photo_task := none }, Action.editDone m.text)) ∧
      (o.edit_ok = false →
        handle_message fresh now o s m =
          ({ s with mode := none }, Action.editFailed m.text))) := by
  constructor
  · intro hpt
    simp only [handle_message, _process_photo_edit_prompt, hm, hpt]
    simp [str]
  · intro pt hpt
    constructor
    · intro he
      simp only [handle_message, _process_photo_edit_prompt, hm, hpt, he]
      simp [str]
    · intro he
      simp only [handle_message, _process_photo_edit_prompt, hm, hpt, he]
      simp [str, hpt]

/-- C2 witness: the three edit-prompt conclusions at concrete inputs. -/
theorem C2_edit_prompt_witness :
    (handle_message 2 0 ⟨true, true⟩
        ⟨some 1, some 0, none, none, some (str "awaiting_edit_prompt"), none, none⟩
        ⟨str "x", false, none⟩ =
      (⟨some 1, some 0, none, none, none, none, none⟩, Action.dataLost)) ∧
    (handle_message 2 0 ⟨true, true⟩
        ⟨some 1, some 0, none, none, some (str "awaiting_edit_prompt"), some ⟨[42], 9, 0⟩, none⟩
        ⟨str "redder", false, none⟩ =
      (⟨some 1, some 0, none, none, none, none, none⟩, Action.editDone (str "redder"))) ∧
    (handle_message 2 0 ⟨false, true⟩
        ⟨some 1, some 0, none, none, some (str "awaiting_edit_prompt"), some ⟨[42], 9, 0⟩, none⟩
        ⟨str "redder", false, none⟩ =
      (⟨some 1, some 0, none, none, none, some ⟨[42], 9, 0⟩, none⟩,
        Action.editFailed (str "redder"))) := by
  refine ⟨?_, ?_, ?_⟩
  · exact (C2_edit_prompt 2 0 ⟨true, true⟩
      ⟨some 1, some 0, none, none, some (str "awaiting_edit_prompt"), none, none⟩
      ⟨str "x", false, none⟩ rfl).1 rfl
  · exact ((C2_edit_prompt 2 0 ⟨true, true⟩
      ⟨some 1, some 0, none, none, some (str "awaiting_edit_prompt"), some ⟨[42], 9, 0⟩, none⟩
      ⟨str "redder", false, none⟩ rfl).2 ⟨[42], 9, 0⟩ rfl).1 rfl
  · exact ((C2_edit_prompt 2 0 ⟨false, true⟩
      ⟨some 1, some 0, none, none, some (str "awaiting_edit_prompt"), some ⟨[42], 9, 0⟩, none⟩
      ⟨str "redder", false, none⟩ rfl).2 ⟨[42], 9, 0⟩ rfl).2 rfl

/-- C3, counterexample: the claim says an exit keyword with no mode set is
a no-op on the session, but the message falls through to the ordinary
conversational turn, which here recreates the stale conversation handle
and updates `last_activity`. -/
theorem C3_counterexample :
    (handle_message 7 1000 ⟨true, true⟩ ⟨some 5, some 0, none, none, none, none, none⟩
        ⟨str "exit", false, none⟩).1 ≠ ⟨some 5, some 0, none, none, none, none, none⟩ ∧
    (handle_message 7 1000 ⟨true, true⟩ ⟨some 5, some 0, none, none, none, none, none⟩
        ⟨str "exit", false, none⟩).1.chat_session = some 7 ∧
    (handle_message 7 1000 ⟨true, true⟩ ⟨some 5, some 0, none, none, none, none, none⟩
        ⟨str "exit", false, none⟩).2 = Action.chatText (str "exit") := by
  decide

/-- C3 (amended): with `mode` unset, an exit keyword is reported unhandled
by the exit stage (no mode-clearing acknowledgement) and is dispatched as
an ordinary conversational turn through `get_or_create_session`, so the
mode stays unset but `last_activity` (and possibly the conversation
handle) change; the dispatch is not a no-op on the session. -/
theorem C3_exit_no_mode (fresh : Nat) (now : Int) (o : Oracle) (s : Session) (m : Msg)
    (hmode : s.mode = none)
    (hword : pyLower (pyStrip m.text) ∈ EXIT_WORDS)
    (hreply : m.replyToPhoto = false)
    (himg : s.active_image = none) :
    _process_exit_commands s (pyLower (pyStrip m.text)) = none ∧
    handle_message fresh now o s m =
      ((get_or_create_session fresh now s).1, Action.chatText (cleanText m)) := by
  refine ⟨exit_none_of_no_mode s _ hmode, ?_⟩
  simp only [handle_message, _process_photo_edit_prompt, hmode,
    exit_none_of_no_mode s _ hmode, fast_none_of_exit fresh now s _ hword,
    _process_reply_to_photo, hreply, himg]
  simp [str]

/-- C3 witness: the exit keyword `exit` with no mode set, dispatched as an
ordinary turn that recreates the stale handle. -/
theorem C3_exit_no_mode_witness :
    _process_exit_commands ⟨some 5, some 0, none, none, none, none, none⟩
        (pyLower (pyStrip (str "exit"))) = none ∧
    handle_message 7 1000 ⟨true, true⟩ ⟨some 5, some 0, none, none, none, none, none⟩
        ⟨str "exit", false, none⟩ =
      ((get_or_create_session 7 1000 ⟨some 5, some 0, none, none, none, none, none⟩).1,
        Action.chatText (cleanText ⟨str "exit", false, none⟩)) :=
  C3_exit_no_mode 7 1000 ⟨true, true⟩ ⟨some 5, some 0, none, none, none, none, none⟩
    ⟨str "exit", false, none⟩ rfl (by decide) rfl rfl

/-- C4, counterexample: the claim says a fourth fragment arriving after the
flush consumed the buffer is dropped, but the code re-creates a fresh
buffer for it and schedules a new delayed flush (googlebot.py 1469-1483). -/
theorem C4_counterexample :
    (process_album_delayed
      (handle_photo_media_group
        (handle_photo_media_group
          (handle_photo_media_group [] ⟨77, 1, [], 5, 6, 100, 0⟩).1
          ⟨77, 2, [], 5, 6, 101, 0⟩).1
        ⟨77, 3, [], 5, 6, 102, 0⟩).1 77).1 = [] ∧
    (handle_photo_media_group [] ⟨77, 4, [], 5, 6, 103, 0⟩).2 = true ∧
    (albumGet 77 (handle_photo_media_group [] ⟨77, 4, [], 5, 6, 103, 0⟩).1).map
      AlbumEntry.photos = some [4] := by
  decide

/-- C4 (amended): three fragments of one group buffered before the flush
produce exactly one scheduled flush (scheduled at the first fragment,
never re-scheduled by later fragments) carrying all three images in
arrival order, and the flush removes the buffer; a fourth fragment
arriving after the flush is NOT dropped: it starts a fresh one-photo
buffer and schedules a new flush. -/
theorem C4_album_coalescing (a : Albums) (g : Nat) (fr1 fr2 fr3 fr4 : Fragment)
    (h1 : fr1.gid = g) (h2 : fr2.gid = g) (h3 : fr3.gid = g) (h4 : fr4.gid = g)
    (ha : albumGet g a = none) :
    (handle_photo_media_group a fr1).2 = true ∧
    (handle_photo_media_group (handle_photo_media_group a fr1).1 fr2).2 = false ∧
    (handle_photo_media_group
      (handle_photo_media_group (handle_photo_media_group a fr1).1 fr2).1 fr3).2 = false ∧
    (process_album_delayed
      (handle_photo_media_group
        (handle_photo_media_group (handle_photo_media_group a fr1).1 fr2).1 fr3).1 g).2.map
      AlbumEntry.photos = some [fr1.photo, fr2.photo, fr3.photo] ∧
    (process_album_delayed
      (handle_photo_media_group
        (handle_photo_media_group (handle_photo_media_group a fr1).1 fr2).1 fr3).1 g).1 = a ∧
    (handle_photo_media_group a fr4).2 = true ∧
    (albumGet g (handle_photo_media_group a fr4).1).map AlbumEntry.photos = some [fr4.photo] := by
  have s1 : handle_photo_media_group a fr1 = (albumSet g (albumEntryOf fr1) a, true) :=
    album_first a fr1 g h1 ha
  obtain ⟨e2, s2, hp2⟩ := album_step (albumSet g (albumEntryOf fr1) a) fr2 g (albumEntryOf fr1)
    h2 (albumGet_set_self g (albumEntryOf fr1) a) (by simp [albumEntryOf, MAX_ALBUM_PHOTOS])
  rw [albumSet_set] at s2
  obtain ⟨e3, s3, hp3⟩ := album_step (albumSet g e2 a) fr3 g e2
    h3 (albumGet_set_self g e2 a)
    (by rw [hp2]; simp [albumEntryOf, MAX_ALBUM_PHOTOS])
  rw [albumSet_set] at s3
  rw [s1]
  dsimp only
  rw [s2]
  dsimp only
  rw [s3]
  dsimp only
  refine ⟨rfl, rfl, rfl, ?_, ?_, ?_, ?_⟩
  · rw [process_album_delayed, albumGet_set_self]
    dsimp only [Option.map]
    rw [hp3, hp2]
    simp [albumEntryOf]
  · rw [process_album_delayed, albumGet_set_self]
    exact albumPop_set g e3 a ha
  · rw [album_first a fr4 g h4 ha]
  · rw [album_first a fr4 g h4 ha]
    dsimp only
    rw [albumGet_set_self]
    simp [albumEntryOf]

/-- C4 witness: the album life-cycle at concrete fragments. -/
theorem C4_album_coalescing_witness :
    (handle_photo_media_group [] ⟨77, 1, [], 5, 6, 100, 0⟩).2 = true ∧
    (handle_photo_media_group (handle_photo_media_group [] ⟨77, 1, [], 5, 6, 100, 0⟩).1
      ⟨77, 2, [], 5, 6, 101, 0⟩).2 = false ∧
    (handle_photo_media_group
      (handle_photo_media_group (handle_photo_media_group [] ⟨77, 1, [], 5, 6, 100, 0⟩).1
        ⟨77, 2, [], 5, 6, 101, 0⟩).1 ⟨77, 3, [], 5, 6, 102, 0⟩).2 = false ∧
    (process_album_delayed
      (handle_photo_media_group
        (handle_photo_media_group (handle_photo_media_group [] ⟨77, 1, [], 5, 6, 100, 0⟩).1
          ⟨77, 2, [], 5, 6, 101, 0⟩).1 ⟨77, 3, [], 5, 6, 102, 0⟩).1 77).2.map
      AlbumEntry.photos = some [1, 2, 3] ∧
    (process_album_delayed
      (handle_photo_media_group
        (handle_photo_media_group (handle_photo_media_group [] ⟨77, 1, [], 5, 6, 100, 0⟩).1
          ⟨77, 2, [], 5, 6, 101, 0⟩).1 ⟨77, 3, [], 5, 6, 102, 0⟩).1 77).1 = [] ∧
    (handle_photo_media_group [] ⟨77, 4, [], 5, 6, 103, 0⟩).2 = true ∧
    (albumGet 77 (handle_photo_media_group [] ⟨77, 4, [], 5, 6, 103, 0⟩).1).map
      AlbumEntry.photos = some [4] :=
  C4_album_coalescing [] 77 ⟨77, 1, [], 5, 6, 100, 0⟩ ⟨77, 2, [], 5, 6, 101, 0⟩
    ⟨77, 3, [], 5, 6, 102, 0⟩ ⟨77, 4, [], 5, 6, 103, 0⟩ rfl rfl rfl rfl rfl

/-- C5, counterexample: the claim says chunking is length-stable and
re-joining the chunks with the original separators reconstructs the input
exactly, but chunk boundaries are whitespace-stripped: for `"ab \ncd"`
with limit 4 the chunks are `"ab"`, `"cd"`, the space is lost, re-joining
with the original `"\n"` separator does not reconstruct the input, and the
chunk lengths no longer account for the input length. -/
theorem C5_counterexample :
    split_message (str "ab \ncd") 4 = [str "ab", str "cd"] ∧
    str "ab" ++ str "\n" ++ str "cd" ≠ str "ab \ncd" ∧
    (str "ab").length + (str "cd").length + (str "\n").length ≠ (str "ab \ncd").length := by
  decide

/-- C5 (amended): chunking is only trivially length-stable: whenever the
input fits within the limit, `split_message` returns the input unchanged
as a single chunk (so re-joining reconstructs it exactly); for longer
inputs the chunks are whitespace-stripped at the boundaries, so exact
reconstruction can fail. -/
theorem C5_chunking (text : Str) (n : Nat) (h : text.length ≤ n) :
    split_message text n = [text] := by
  rw [split_message]
  split <;> simp_all

/-- C5 witness: a short input is returned as the single chunk. -/
theorem C5_chunking_witness :
    (str "hi").length ≤ 5 ∧ split_message (str "hi") 5 = [str "hi"] :=
  ⟨by decide, C5_chunking (str "hi") 5 (by decide)⟩

/-- C6, counterexample: the claim says transient-class failures (including
an empty successful response) are retried with linearly increasing
backoff, but empty responses are retried after a fixed 2-second sleep
(googlebot.py 729), not `attempt index × constant`. -/
theorem C6_counterexample :
    send_with_retry
        (fun n => if n < 2 then SendOutcome.success [] else SendOutcome.success (str "ok")) =
      (Sum.inl (str "ok"), [2, 2]) ∧
    ([2, 2] : List Nat) ≠ [1 * 3, 2 * 3] := by
  constructor
  · simp [send_with_retry, sendAttempts, MAX_RETRIES, pyStrip, pyLStrip, pyRStrip, str]
    decide
  · decide

/-- C6 (amended): on the persistent-conversation send path, an exception
carrying a transient status code (429/503/500) is retried up to
`MAX_RETRIES = 2` extra attempts with linearly increasing backoff
`(attempt + 1) * 3`; empty responses (and timeouts) are retried up to the
same bound but with a fixed 2-second sleep; a non-transient exception
propagates immediately with no retry, and exhausted retries propagate. -/
theorem C6_retry_policy (outcomes : Nat → SendOutcome) (msg : Str) :
    (outcomes 0 = SendOutcome.exc msg → isTransientCode msg = false →
      send_with_retry outcomes = (Sum.inr (SendErr.exc msg), [])) ∧
    ((∀ i, i ≤ MAX_RETRIES → outcomes i = SendOutcome.exc msg) → isTransientCode msg = true →
      send_with_retry outcomes = (Sum.inr (SendErr.exc msg), [1 * 3, 2 * 3])) ∧
    ((∀ i, i ≤ MAX_RETRIES → outcomes i = SendOutcome.success []) →
      send_with_retry outcomes = (Sum.inr SendErr.emptyResp, [2, 2])) ∧
    (∀ t, outcomes 0 = SendOutcome.exc msg → isTransientCode msg = true →
      outcomes 1 = SendOutcome.success t → pyStrip t ≠ [] →
      send_with_retry outcomes = (Sum.inl t, [1 * 3])) := by
  refine ⟨fun h0 htr => ?_, fun hall htr => ?_, fun hall => ?_, fun t h0 htr h1 hs => ?_⟩
  · simp [send_with_retry, sendAttempts, MAX_RETRIES, htr, h0]
  · simp [send_with_retry, sendAttempts, MAX_RETRIES, htr,
      hall 0 (by decide), hall 1 (by decide), hall 2 (by decide)]
  · simp [send_with_retry, sendAttempts, MAX_RETRIES, pyStrip, pyLStrip, pyRStrip,
      hall 0 (by decide), hall 1 (by decide), hall 2 (by decide)]
  · simp [send_with_retry, sendAttempts, MAX_RETRIES, htr, h0, h1, hs]

/-- C6 witness: the four retry-policy conclusions at concrete outcomes. -/
theorem C6_retry_policy_witness :
    send_with_retry (fun _ => SendOutcome.exc (str "error 401")) =
      (Sum.inr (SendErr.exc (str "error 401")), []) ∧
    send_with_retry (fun _ => SendOutcome.exc (str "http 503")) =
      (Sum.inr (SendErr.exc (str "http 503")), [1 * 3, 2 * 3]) ∧
    send_with_retry (fun _ => SendOutcome.success []) =
      (Sum.inr SendErr.emptyResp, [2, 2]) ∧
    send_with_retry
        (fun n => if n = 0 then SendOutcome.exc (str "http 503") else
          SendOutcome.success (str "ok")) = (Sum.inl (str "ok"), [1 * 3]) := by
  refine ⟨?_, ?_, ?_, ?_⟩
  · exact (C6_retry_policy (fun _ => SendOutcome.exc (str "error 401")) (str "error 401")).1
      rfl (by decide)
  · exact (C6_retry_policy (fun _ => SendOutcome.exc (str "http 503")) (str "http 503")).2.1
      (fun i _ => rfl) (by decide)
  · exact (C6_retry_policy (fun _ => SendOutcome.success []) (str "x")).2.2.1 (fun i _ => rfl)
  · exact (C6_retry_policy
      (fun n => if n = 0 then SendOutcome.exc (str "http 503") else SendOutcome.success (str "ok"))
      (str "http 503")).2.2.2 (str "ok") rfl (by decide) rfl (by decide)

/-- C8: a session whose `last_activity` is older than the conversation
timeout has its conversation handle recreated inside the next
`get_or_create_session` read itself: the read returns a fresh handle
distinct from the previous one and installs it in the session. -/
theorem C8_conversation_timeout (fresh : Nat) (now : Int) (s : Session) (h : Nat)
    (hs : s.chat_session = some h) (hf : fresh ≠ h)
    (ht : now - s.last_activity.getD 0 > MEMORY_TIMEOUT) :
    get_or_create_session fresh now s = (reset_session fresh now s, fresh) ∧
    (get_or_create_session fresh now s).1.chat_session = some fresh ∧
    (get_or_create_session fresh now s).2 ≠ h := by
  refine ⟨?_, ?_, ?_⟩ <;> simp [get_or_create_session, reset_session, hs, ht, hf]

/-- C8 witness: a stale session (idle 1000 s > 300 s) gets a new handle. -/
theorem C8_conversation_timeout_witness :
    get_or_create_session 4 1000 ⟨some 3, some 0, none, none, none, none, none⟩ =
      (reset_session 4 1000 ⟨some 3, some 0, none, none, none, none, none⟩, 4) ∧
    (get_or_create_session 4 1000
      ⟨some 3, some 0, none, none, none, none, none⟩).1.chat_session = some 4 ∧
    (get_or_create_session 4 1000 ⟨some 3, some 0, none, none, none, none, none⟩).2 ≠ 3 :=
  C8_conversation_timeout 4 1000 ⟨some 3, some 0, none, none, none, none, none⟩ 3
    rfl (by decide) (by decide)

/-- C9: `reset_session` replaces the conversation handle with a fresh one,
clears `mode` and `active_image`, and preserves both model-tier
preferences (`model` and `image_model`). -/
theorem C9_reset_session (fresh : Nat) (now : Int) (s : Session) (h : Nat)
    (hs : s.chat_session = some h) (hf : fresh ≠ h) :
    (reset_session fresh now s).chat_session = some fresh ∧
    (reset_session fresh now s).chat_session ≠ s.chat_session ∧
    (reset_session fresh now s).mode = none ∧
    (reset_session fresh now s).active_image = none ∧
    (reset_session fresh now s).model = s.model ∧
    (reset_session fresh now s).image_model = s.image_model := by
  simp [reset_session, hs, hf]

/-- C9 witness: a concrete reset replacing handle 3 by handle 4. -/
theorem C9_reset_session_witness :
    (reset_session 4 50 ⟨some 3, some 0, some (str "pro"), some (str "flash"),
        some (str "translate"), none, some ⟨9, 0⟩⟩).chat_session = some 4 ∧
    (reset_session 4 50 ⟨some 3, some 0, some (str "pro"), some (str "flash"),
        some (str "translate"), none, some ⟨9, 0⟩⟩).chat_session ≠ some 3 ∧
    (reset_session 4 50 ⟨some 3, some 0, some (str "pro"), some (str "flash"),
        some (str "translate"), none, some ⟨9, 0⟩⟩).mode = none ∧
    (reset_session 4 50 ⟨some 3, some 0, some (str "pro"), some (str "flash"),
        some (str "translate"), none, some ⟨9, 0⟩⟩).active_image = none ∧
    (reset_session 4 50 ⟨some 3, some 0, some (str "pro"), some (str "flash"),
        some (str "translate"), none, some ⟨9, 0⟩⟩).model = some (str "pro") ∧
    (reset_session 4 50 ⟨some 3, some 0, some (str "pro"), some (str "flash"),
        some (str "translate"), none, some ⟨9, 0⟩⟩).image_model = some (str "flash") :=
  C9_reset_session 4 50 ⟨some 3, some 0, some (str "pro"), some (str "flash"),
    some (str "translate"), none, some ⟨9, 0⟩⟩ 3 rfl (by decide)

/-- C10 (implicit): `reset_session` — and the dispatch paths that invoke it
(the bare `.` reset token and the `п`/`ф` model switches, outside the
`awaiting_edit_prompt` interception) — leave `photo_task` unchanged, so a
photo submitted before a reset is still pending after it. -/
theorem C10_reset_keeps_photo_task (fresh : Nat) (now : Int) (o : Oracle) (s : Session)
    (bu : Option Str) (hm : s.mode ≠ some (str "awaiting_edit_prompt")) :
    (reset_session fresh now s).photo_task = s.photo_task ∧
    (handle_message fresh now o s ⟨str ".", false, bu⟩).1.photo_task = s.photo_task ∧
    (handle_message fresh now o s ⟨str "п", false, bu⟩).1.photo_task = s.photo_task ∧
    (handle_message fresh now o s ⟨str "ф", false, bu⟩).1.photo_task = s.photo_task := by
  refine ⟨rfl, ?_, ?_, ?_⟩ <;>
    (rw [handle_message, _process_photo_edit_prompt, if_pos hm];
      simp [_process_exit_commands, _process_fast_commands, _process_fast_commands_rest,
        _process_fast_commands_rest2, reset_session, str, pyStrip, pyLower, pyLStrip,
        pyRStrip, pyIsSpace, pyLowerChar, EXIT_WORDS, List.isPrefixOf])

/-- C10 witness: resets at a session with a pending photo task. -/
theorem C10_reset_keeps_photo_task_witness :
    (reset_session 2 9 ⟨some 1, some 0, none, none, none, some ⟨[42], 7, 0⟩, none⟩).photo_task =
      some ⟨[42], 7, 0⟩ ∧
    (handle_message 2 9 ⟨true, true⟩ ⟨some 1, some 0, none, none, none, some ⟨[42], 7, 0⟩, none⟩
      ⟨str ".", false, none⟩).1.photo_task = some ⟨[42], 7, 0⟩ ∧
    (handle_message 2 9 ⟨true, true⟩ ⟨some 1, some 0, none, none, none, some ⟨[42], 7, 0⟩, none⟩
      ⟨str "п", false, none⟩).1.photo_task = some ⟨[42], 7, 0⟩ ∧
    (handle_message 2 9 ⟨true, true⟩ ⟨some 1, some 0, none, none, none, some ⟨[42], 7, 0⟩, none⟩
      ⟨str "ф", false, none⟩).1.photo_task = some ⟨[42], 7, 0⟩ :=
  C10_reset_keeps_photo_task 2 9 ⟨true, true⟩
    ⟨some 1, some 0, none, none, none, some ⟨[42], 7, 0⟩, none⟩ none (by decide)

theorem W2_no_star : ∀ w ∈ W2, ∀ y ∈ w, y ≠ '*' := by decide

theorem W2_no_tilde : ∀ w ∈ W2, ∀ y ∈ w, y ≠ '~' := by decide

theorem W2_no_nl : ∀ w ∈ W2, ∀ y ∈ w, y ≠ '\n' := by decide

theorem W2_no_lbrack : ∀ w ∈ W2, ∀ y ∈ w, y ≠ '[' := by decide

theorem W2_no_rbrack : ∀ w ∈ W2, ∀ y ∈ w, y ≠ ']' ∧ y ≠ ')' ∧ y ≠ '"' ∧ y ≠ '%' := by decide

theorem replaceChar_copy {c : Char} {new : Str} {w : Str} (hw : ∀ y ∈ w, y ≠ c) (t : Str) :
    replaceChar c new (w ++ t) = w ++ replaceChar c new t := by
  induction w with
  | nil => rfl
  | cons x xs ih =>
    rw [List.cons_append, replaceChar, if_neg (hw x (by simp)),
      ih (fun y hy => hw y (by simp [hy]))]
    rfl

theorem pyReplaceAux_copy {hd : Char} {pr repl : Str} {w : Str}
    (hw : ∀ y ∈ w, y ≠ hd) : ∀ (fuel : Nat) (t : Str), ∃ t',
    pyReplaceAux (hd :: pr) repl fuel (w ++ t) = w ++ t' := by
  induction w with
  | nil => exact fun fuel t => ⟨pyReplaceAux (hd :: pr) repl fuel t, rfl⟩
  | cons x xs ih =>
    intro fuel t
    cases fuel with
    | zero => exact ⟨t, rfl⟩
    | succ f =>
      rw [List.cons_append, pyReplaceAux]
      have hx : x ≠ hd := hw x (by simp)
      have hpf : ((hd :: pr).isPrefixOf (x :: (xs ++ t))) = false :=
        Bool.eq_false_iff.2 (fun hcontra =>
          hx (List.cons_prefix_cons.1 (List.isPrefixOf_iff_prefix.1 hcontra)).1.symm)
      rw [if_neg (by simp [hpf])]
      obtain ⟨t', ht'⟩ := ih (fun y hy => hw y (by simp [hy])) f t
      exact ⟨t', by simp [ht']⟩

theorem boldAux_copy {w : Str} (hw : ∀ y ∈ w, y ≠ '*') : ∀ (fuel : Nat) (t : Str),
    ∃ t', boldAux fuel (w ++ t) = w ++ t' := by
  induction w with
  | nil => exact fun fuel t => ⟨boldAux fuel t, rfl⟩
  | cons x xs ih =>
    intro fuel t
    cases fuel with
    | zero => exact ⟨t, rfl⟩
    | succ f =>
      rw [List.cons_append, boldAux]
      rw [if_neg (by simp [hw x (by simp)])]
      obtain ⟨t', ht'⟩ := ih (fun y hy => hw y (by simp [hy])) f t
      exact ⟨t', by simp [ht']⟩

theorem italAux_copy {d : Char} {w : Str} (hw : ∀ y ∈ w, y ≠ d) :
    ∀ (prev : Option Char) (fuel : Nat) (t : Str),
    ∃ t', italAux d prev fuel (w ++ t) = w ++ t' := by
  induction w with
  | nil => exact fun prev fuel t => ⟨italAux d prev fuel t, rfl⟩
  | cons x xs ih =>
    intro prev fuel t
    cases fuel with
    | zero => exact ⟨t, rfl⟩
    | succ f =>
      rw [List.cons_append, italAux]
      rw [if_neg (by simp [hw x (by simp)])]
      obtain ⟨t', ht'⟩ := ih (fun y hy => hw y (by simp [hy])) (some x) f t
      exact ⟨t', by simp [ht']⟩

theorem strikeAux_copy {w : Str} (hw : ∀ y ∈ w, y ≠ '~') : ∀ (fuel : Nat) (t : Str),
    ∃ t', strikeAux fuel (w ++ t) = w ++ t' := by
  induction w with
  | nil => exact fun fuel t => ⟨strikeAux fuel t, rfl⟩
  | cons x xs ih =>
    intro fuel t
    cases fuel with
    | zero => exact ⟨t, rfl⟩
    | succ f =>
      rw [List.cons_append, strikeAux]
      rw [if_neg (by simp [hw x (by simp)])]
      obtain ⟨t', ht'⟩ := ih (fun y hy => hw y (by simp [hy])) f t
      exact ⟨t', by simp [ht']⟩

theorem bulletsAux_copy {w : Str} (hw : ∀ y ∈ w, y ≠ '\n') : ∀ (fuel : Nat) (t : Str),
    ∃ t', bulletsAux false fuel (w ++ t) = w ++ t' := by
  induction w with
  | nil => exact fun fuel t => ⟨bulletsAux false fuel t, rfl⟩
  | cons x xs ih =>
    intro fuel t
    cases fuel with
    | zero => exact ⟨t, rfl⟩
    | succ f =>
      have hb : (decide (x = '\n')) = false := by simp [hw x (by simp)]
      rw [List.cons_append, bulletsAux]
      simp only [Bool.false_eq_true, if_false, hb]
      obtain ⟨t', ht'⟩ := ih (fun y hy => hw y (by simp [hy])) f t
      exact ⟨t', by simp [ht']⟩

theorem linksAux_copy {w : Str} (hw : ∀ y ∈ w, y ≠ '[') : ∀ (fuel : Nat) (t : Str),
    ∃ t', linksAux fuel (w ++ t) = w ++ t' := by
  induction w with
  | nil => exact fun fuel t => ⟨linksAux fuel t, rfl⟩
  | cons x xs ih =>
    intro fuel t
    cases fuel with
    | zero => exact ⟨t, rfl⟩
    | succ f =>
      rw [List.cons_append, linksAux]
      rw [if_neg (hw x (by simp))]
      obtain ⟨t', ht'⟩ := ih (fun y hy => hw y (by simp [hy])) f t
      exact ⟨t', by simp [ht']⟩

theorem findBoldClose_spec : ∀ {fuel : Nat} {s content rest : Str},
    findBoldClose fuel s = some (content, rest) → s = content ++ '*' :: '*' :: rest := by
  intro fuel
  induction fuel with
  | zero => intro s content rest h; simp [findBoldClose] at h
  | succ f ih =>
    intro s content rest h
    cases s with
    | nil => simp [findBoldClose] at h
    | cons c cs =>
      rw [findBoldClose] at h
      split at h
      · rename_i hc
        simp at h hc
        obtain ⟨h1, h2⟩ := h
        cases cs with
        | nil => simp at hc
        | cons c2 cs2 =>
          simp at hc
          simp [← h1, hc.1, hc.2, ← h2]
      · simp only [Option.map_eq_some'] at h
        obtain ⟨⟨c1, r1⟩, hfind, heq⟩ := h
        simp at heq
        rw [← heq.1, ← heq.2]
        simp [ih hfind]

theorem findStrikeClose_spec : ∀ {fuel : Nat} {s content rest : Str},
    findStrikeClose fuel s = some (content, rest) → s = content ++ '~' :: '~' :: rest := by
  intro fuel
  induction fuel with
  | zero => intro s content rest h; simp [findStrikeClose] at h
  | succ f ih =>
    intro s content rest h
    cases s with
    | nil => simp [findStrikeClose] at h
    | cons c cs =>
      rw [findStrikeClose] at h
      split at h
      · rename_i hc
        simp at h hc
        obtain ⟨h1, h2⟩ := h
        cases cs with
        | nil => simp at hc
        | cons c2 cs2 =>
          simp at hc
          simp [← h1, hc.1, hc.2, ← h2]
      · split at h
        · simp at h
        · simp only [Option.map_eq_some'] at h
          obtain ⟨⟨c1, r1⟩, hfind, heq⟩ := h
          simp at heq
          rw [← heq.1, ← heq.2]
          simp [ih hfind]


theorem boldAux_safe : ∀ (fuel : Nat) (s : Str), safeB s = true →
    safeB (boldAux fuel s) = true := by
  intro fuel
  induction fuel with
  | zero => exact fun s hs => hs
  | succ f ih =>
    intro s hs
    cases s with
    | nil => exact hs
    | cons c cs =>
      have hcs : safeB cs = true := safeB_tail hs
      have hstep : safeB (c :: boldAux f cs) = true := by
        by_cases hc : c = '<'
        · subst hc
          rcases (safeB_cons_iff.1 hs).1 with h | ⟨w, hw, hp⟩
          · exact absurd rfl h
          · obtain ⟨t, ht⟩ := hp
            obtain ⟨t', ht'⟩ := boldAux_copy (fun y hy => W2_no_star w hw y hy) f t
            exact safeB_cons_iff.2 ⟨Or.inr ⟨w, hw, ⟨t', by rw [← ht, ht']⟩⟩, ih cs hcs⟩
        · exact safeB_cons_of_ne hc (ih cs hcs)
      rw [boldAux]
      split
      · rename_i h1
        split
        · rename_i content rest hfind
          have hspec := findBoldClose_spec hfind
          split
          · rename_i h2
            simp only [Bool.and_eq_true, decide_eq_true_eq] at h1
            cases cs with
            | nil => simp at h1
            | cons c2 cs2 =>
              simp only [List.tail_cons] at hspec
              have hfull : safeB (content ++ '*' :: '*' :: rest) = true := by
                rw [← hspec]
                exact safeB_tail hcs
              have hcontent : safeB content = true :=
                safeB_cut hfull (by decide)
              have hrest : safeB rest = true :=
                safeB_tail (safeB_tail (safeB_append_right (a := content) hfull))
              exact safeB_append (safeB_append (safeB_append (by decide) hcontent)
                (by decide)) (ih rest hrest)
          · exact hstep
        · exact hstep
      · exact hstep




theorem strikeAux_safe : ∀ (fuel : Nat) (s : Str), safeB s = true →
    safeB (strikeAux fuel s) = true := by
  intro fuel
  induction fuel with
  | zero => exact fun s hs => hs
  | succ f ih =>
    intro s hs
    cases s with
    | nil => exact hs
    | cons c cs =>
      have hcs : safeB cs = true := safeB_tail hs
      have hstep : safeB (c :: strikeAux f cs) = true := by
        by_cases hc : c = '<'
        · subst hc
          rcases (safeB_cons_iff.1 hs).1 with h | ⟨w, hw, hp⟩
          · exact absurd rfl h
          · obtain ⟨t, ht⟩ := hp
            obtain ⟨t', ht'⟩ := strikeAux_copy (fun y hy => W2_no_tilde w hw y hy) f t
            exact safeB_cons_iff.2 ⟨Or.inr ⟨w, hw, ⟨t', by rw [← ht, ht']⟩⟩, ih cs hcs⟩
        · exact safeB_cons_of_ne hc (ih cs hcs)
      rw [strikeAux]
      split
      · rename_i h1
        split
        · rename_i content rest hfind
          have hspec := findStrikeClose_spec hfind
          simp only [Bool.and_eq_true, decide_eq_true_eq] at h1
          cases cs with
          | nil => simp at h1
          | cons c2 cs2 =>
            simp only [List.tail_cons] at hspec
            have hfull : safeB (content ++ '~' :: '~' :: rest) = true := by
              rw [← hspec]
              exact safeB_tail hcs
            have hcontent : safeB content = true := safeB_cut hfull (by decide)
            have hrest : safeB rest = true :=
              safeB_tail (safeB_tail (safeB_append_right (a := content) hfull))
            exact safeB_append (safeB_append (safeB_append (by decide) hcontent)
              (by decide)) (ih rest hrest)
        · exact hstep
      · exact hstep

theorem italAux_safe (d : Char)
    (hW : ∀ w ∈ W2, ∀ y ∈ w, y ≠ d) :
    ∀ (fuel : Nat) (prev : Option Char) (s : Str), safeB s = true →
    safeB (italAux d prev fuel s) = true := by
  intro fuel
  induction fuel with
  | zero => exact fun prev s hs => hs
  | succ f ih =>
    intro prev s hs
    cases s with
    | nil => exact hs
    | cons c cs =>
      have hcs : safeB cs = true := safeB_tail hs
      have hstep : ∀ pr, safeB (c :: italAux d pr f cs) = true := by
        intro pr
        by_cases hc : c = '<'
        · subst hc
          rcases (safeB_cons_iff.1 hs).1 with h | ⟨w, hw, hp⟩
          · exact absurd rfl h
          · obtain ⟨t, ht⟩ := hp
            obtain ⟨t', ht'⟩ := italAux_copy (fun y hy => hW w hw y hy) pr f t
            exact safeB_cons_iff.2 ⟨Or.inr ⟨w, hw, ⟨t', by rw [← ht, ht']⟩⟩, ih pr cs hcs⟩
        · exact safeB_cons_of_ne hc (ih pr cs hcs)
      rw [italAux]
      split
      · dsimp only
        split
        · rename_i h1 h2
          simp only [Bool.and_eq_true, decide_eq_true_eq] at h2
          obtain ⟨⟨hcne, hhead⟩, -⟩ := h2
          have hdecomp : cs = cs.takeWhile (fun x => x ≠ d && x ≠ '\n') ++
              cs.dropWhile (fun x => x ≠ d && x ≠ '\n') :=
            (List.takeWhile_append_dropWhile _ _).symm
          have hcs2 : safeB (cs.dropWhile (fun x => x ≠ d && x ≠ '\n')) = true :=
            safeB_dropWhile _ hcs
          have hcontent : safeB (cs.takeWhile (fun x => x ≠ d && x ≠ '\n')) = true := by
            cases hrest : cs.dropWhile (fun x => x ≠ d && x ≠ '\n') with
            | nil => rw [hrest] at hhead; simp at hhead
            | cons r0 rs =>
              rw [hrest] at hhead
              simp at hhead
              rw [hhead] at hrest
              refine safeB_cut (c := d) (t := rs) ?_ (fun w hw hmem => hW w hw d hmem rfl)
              rw [← hrest, ← hdecomp]
              exact hcs
          have htl : safeB (cs.dropWhile (fun x => x ≠ d && x ≠ '\n')).tail = true := by
            cases hrest : cs.dropWhile (fun x => x ≠ d && x ≠ '\n') with
            | nil => rfl
            | cons r0 rs => exact safeB_tail (hrest ▸ hcs2)
          exact safeB_append (safeB_append (safeB_append (by decide) hcontent)
            (by decide)) (ih (some d) _ htl)
        · exact hstep (some c)
      · exact hstep (some c)

theorem bulletsAux_safe : ∀ (fuel : Nat) (atLS : Bool) (s : Str), safeB s = true →
    safeB (bulletsAux atLS fuel s) = true := by
  intro fuel
  induction fuel with
  | zero => exact fun _ s hs => hs
  | succ f ih =>
    intro atLS s hs
    cases s with
    | nil => exact hs
    | cons c cs =>
      have hcs := safeB_tail hs
      have hstep : safeB (c :: bulletsAux (decide (c = '\n')) f cs) = true := by
        by_cases hc : c = '<'
        · subst hc
          rcases (safeB_cons_iff.1 hs).1 with h | ⟨w, hw, hp⟩
          · exact absurd rfl h
          · obtain ⟨t, ht⟩ := hp
            have hb : (decide (('<' : Char) = '\n')) = false := by decide
            rw [hb]
            obtain ⟨t', ht'⟩ := bulletsAux_copy (fun y hy => W2_no_nl w hw y hy) f t
            exact safeB_cons_iff.2 ⟨Or.inr ⟨w, hw, ⟨t', by rw [← ht, ht']⟩⟩, ih false cs hcs⟩
        · exact safeB_cons_of_ne hc (ih _ cs hcs)
      rw [bulletsAux]
      split
      · split
        · rename_i rest ls hsome
          have hrest : safeB rest = true := by
            unfold tryBullet at hsome
            cases hr1 : (c :: cs).dropWhile pyIsSpace with
            | nil => rw [hr1] at hsome; simp at hsome
            | cons b r2 =>
              rw [hr1] at hsome
              dsimp only at hsome
              split at hsome
              · split at hsome
                · simp at hsome
                · simp only [Option.some.injEq, Prod.mk.injEq] at hsome
                  have h2 : safeB (b :: r2) = true := by
                    rw [← hr1]
                    exact safeB_dropWhile pyIsSpace hs
                  rw [← hsome.1]
                  exact safeB_dropWhile pyIsSpace (safeB_tail h2)
              · simp at hsome
          exact safeB_append (by decide) (ih ls rest hrest)
        · exact hstep
      · exact hstep

theorem mem_pyRStrip {y : Char} {l : Str} (hy : y ∈ pyRStrip l) : y ∈ l := by
  unfold pyRStrip at hy
  have h1 := List.mem_reverse.1 hy
  have h2 := (List.dropWhile_sublist pyIsSpace).mem h1
  exact List.mem_reverse.1 h2

theorem headAux_safe : ∀ (fuel : Nat) (atLS : Bool) (s : Str),
    (∀ y ∈ s, y ≠ '<') → safeB (headAux atLS fuel s) = true := by
  intro fuel
  induction fuel with
  | zero => exact fun _ s hs => safeB_of_ltFree hs
  | succ f ih =>
    intro atLS s hlt
    cases s with
    | nil => rfl
    | cons c cs =>
      have hltcs : ∀ y ∈ cs, y ≠ '<' := fun y hy => hlt y (by simp [hy])
      have hstep : safeB (c :: headAux (decide (c = '\n')) f cs) = true :=
        safeB_cons_of_ne (hlt c (by simp)) (ih _ cs hltcs)
      rw [headAux]
      split
      · split
        · rename_i content rest hsome
          have hcr : (∀ y ∈ content, y ≠ '<') ∧ (∀ y ∈ rest, y ≠ '<') := by
            unfold tryHeading at hsome
            dsimp only at hsome
            split at hsome
            · simp at hsome
            · split at hsome
              · simp at hsome
              · simp only [Option.some.injEq, Prod.mk.injEq] at hsome
                obtain ⟨hcon, hrst⟩ := hsome
                constructor
                · intro y hy
                  rw [← hcon] at hy
                  have h1 := mem_pyRStrip hy
                  have h2 := (List.takeWhile_sublist _).mem h1
                  have h3 := (List.dropWhile_sublist pyIsSpace).mem h2
                  have h4 := (List.dropWhile_sublist (· = '#')).mem h3
                  have h5 := (List.dropWhile_sublist pyIsSpace).mem h4
                  exact hlt y h5
                · intro y hy
                  rw [← hrst] at hy
                  have h1 := (List.dropWhile_sublist _).mem hy
                  have h3 := (List.dropWhile_sublist pyIsSpace).mem h1
                  have h4 := (List.dropWhile_sublist (· = '#')).mem h3
                  have h5 := (List.dropWhile_sublist pyIsSpace).mem h4
                  exact hlt y h5
          exact safeB_append (safeB_append (safeB_append (by decide)
            (safeB_of_ltFree hcr.1)) (by decide)) (ih false rest hcr.2)
        · exact hstep
      · exact hstep

theorem replaceChar_safe {c : Char} {new : Str}
    (hW : ∀ w ∈ W2, ∀ y ∈ w, y ≠ c) (hnew : safeB new = true) :
    ∀ s, safeB s = true → safeB (replaceChar c new s) = true := by
  intro s
  induction s with
  | nil => exact fun _ => rfl
  | cons x xs ih =>
    intro hs
    rw [replaceChar]
    split
    · exact safeB_append hnew (ih (safeB_tail hs))
    · by_cases hlt : x = '<'
      · subst hlt
        rcases (safeB_cons_iff.1 hs).1 with h | ⟨w, hw, hp⟩
        · exact absurd rfl h
        · obtain ⟨t, ht⟩ := hp
          have hcp : replaceChar c new xs = w ++ replaceChar c new t := by
            rw [← ht]
            exact replaceChar_copy (fun y hy => hW w hw y hy) t
          exact safeB_cons_iff.2 ⟨Or.inr ⟨w, hw, ⟨replaceChar c new t, hcp.symm⟩⟩,
            ih (safeB_tail hs)⟩
      · exact safeB_cons_of_ne hlt (ih (safeB_tail hs))


theorem pyReplaceAux_safe {hd0 : Char} {pr repl : Str}
    (hW : ∀ w ∈ W2, ∀ y ∈ w, y ≠ hd0) (hrepl : safeB repl = true) :
    ∀ (fuel : Nat) (s : Str), safeB s = true →
    safeB (pyReplaceAux (hd0 :: pr) repl fuel s) = true := by
  intro fuel
  induction fuel with
  | zero => exact fun s hs => hs
  | succ f ih =>
    intro s hs
    cases s with
    | nil => rfl
    | cons c cs =>
      rw [pyReplaceAux]
      split
      · exact safeB_append hrepl (ih _ (safeB_drop hs _))
      · by_cases hc : c = '<'
        · subst hc
          rcases (safeB_cons_iff.1 hs).1 with h | ⟨w, hw, hp⟩
          · exact absurd rfl h
          · obtain ⟨t, ht⟩ := hp
            obtain ⟨t', ht'⟩ := @pyReplaceAux_copy hd0 pr repl w
              (fun y hy => hW w hw y hy) f t
            exact safeB_cons_iff.2 ⟨Or.inr ⟨w, hw, ⟨t', by rw [← ht, ht']⟩⟩,
              ih cs (safeB_tail hs)⟩
        · exact safeB_cons_of_ne hc (ih cs (safeB_tail hs))



theorem safeB_tail_any {l : Str} (hl : safeB l = true) : safeB l.tail = true := by
  cases l with
  | nil => exact hl
  | cons a b => exact safeB_tail hl

theorem tryLink_safe {cs txt url rest : Str} (hcs : safeB cs = true)
    (hsome : tryLink cs = some (txt, url, rest)) :
    safeB txt = true ∧ safeB url = true ∧ safeB rest = true := by
  unfold tryLink at hsome
  dsimp only at hsome
  split at hsome
  · rename_i h1
    split at hsome
    · rename_i h2
      simp only [Bool.and_eq_true, decide_eq_true_eq] at h1 h2
      obtain ⟨⟨-, hr1h⟩, -⟩ := h1
      obtain ⟨-, hr3h⟩ := h2
      simp only [Option.some.injEq, Prod.mk.injEq] at hsome
      obtain ⟨htxteq, hurleq, hresteq⟩ := hsome
      have hdecomp : cs = cs.takeWhile (fun x => x ≠ ']') ++
          cs.dropWhile (fun x => x ≠ ']') :=
        (List.takeWhile_append_dropWhile _ _).symm
      have hr1safe : safeB (cs.dropWhile (fun x => x ≠ ']')) = true :=
        safeB_dropWhile _ hcs
      have htxt : safeB txt = true := by
        rw [← htxteq]
        cases hr1 : cs.dropWhile (fun x => x ≠ ']') with
        | nil => rw [hr1] at hr1h; simp at hr1h
        | cons b1 r1t =>
          rw [hr1] at hr1h
          simp at hr1h
          rw [hr1h] at hr1
          refine safeB_cut (c := ']') (t := r1t) ?_
            (fun w hw hmem => (W2_no_rbrack w hw ']' hmem).1 rfl)
          rw [← hr1, ← hdecomp]
          exact hcs
      have hr2safe : safeB ((cs.dropWhile (fun x => x ≠ ']')).tail.tail) = true :=
        safeB_tail_any (safeB_tail_any hr1safe)
      have hudecomp : (cs.dropWhile (fun x => x ≠ ']')).tail.tail =
          ((cs.dropWhile (fun x => x ≠ ']')).tail.tail).takeWhile (fun x => x ≠ ')') ++
          ((cs.dropWhile (fun x => x ≠ ']')).tail.tail).dropWhile (fun x => x ≠ ')') :=
        (List.takeWhile_append_dropWhile _ _).symm
      have hr3safe : safeB (((cs.dropWhile (fun x => x ≠ ']')).tail.tail).dropWhile
          (fun x => x ≠ ')')) = true := safeB_dropWhile _ hr2safe
      have hurl : safeB url = true := by
        rw [← hurleq]
        cases hr3 : ((cs.dropWhile (fun x => x ≠ ']')).tail.tail).dropWhile
            (fun x => x ≠ ')') with
        | nil => rw [hr3] at hr3h; simp at hr3h
        | cons b3 r3t =>
          rw [hr3] at hr3h
          simp at hr3h
          rw [hr3h] at hr3
          refine safeB_cut (c := ')') (t := r3t) ?_
            (fun w hw hmem => (W2_no_rbrack w hw ')' hmem).2.1 rfl)
          rw [← hr3, ← hudecomp]
          exact hr2safe
      have hrest : safeB rest = true := by
        rw [← hresteq]
        exact safeB_tail_any hr3safe
      exact ⟨htxt, hurl, hrest⟩
    · simp at hsome
  · simp at hsome

theorem linksAux_safe : ∀ (fuel : Nat) (s : Str), safeB s = true →
    safeB (linksAux fuel s) = true := by
  intro fuel
  induction fuel with
  | zero => exact fun s hs => hs
  | succ f ih =>
    intro s hs
    cases s with
    | nil => exact hs
    | cons c cs =>
      have hcs := safeB_tail hs
      have hstep : safeB (c :: linksAux f cs) = true := by
        by_cases hc : c = '<'
        · subst hc
          rcases (safeB_cons_iff.1 hs).1 with h | ⟨w, hw, hp⟩
          · exact absurd rfl h
          · obtain ⟨t, ht⟩ := hp
            obtain ⟨t', ht'⟩ := linksAux_copy (fun y hy => W2_no_lbrack w hw y hy) f t
            exact safeB_cons_iff.2 ⟨Or.inr ⟨w, hw, ⟨t', by rw [← ht, ht']⟩⟩, ih cs hcs⟩
        · exact safeB_cons_of_ne hc (ih cs hcs)
      rw [linksAux]
      split
      · split
        · rename_i txt url rest hsome
          obtain ⟨htxt, hurl, hrest⟩ := tryLink_safe hcs hsome
          refine safeB_append (safeB_append (safeB_append (safeB_append
            (safeB_append (by decide) ?_) (by decide)) htxt) (by decide))
            (ih rest hrest)
          exact replaceChar_safe (fun w hw y hy => (W2_no_rbrack w hw y hy).2.2.1)
            (by decide) _ hurl
        · exact hstep
      · exact hstep

theorem escape_safeB (s : Str) : safeB (escape_html s) = true :=
  safeB_of_ltFree (fun y hy => (escape_html_ltFree s y hy).1)

theorem renderCode_safe (tok : Str) : safeB (renderCode tok) = true := by
  unfold renderCode
  split
  · dsimp only
    split
    · rename_i code rest hfence
      split
      · refine safeB_append (safeB_append (safeB_append (safeB_append (by decide) ?_)
          (by decide)) (escape_safeB _)) (by decide)
        refine safeB_of_ltFree (fun y hy hcontra => ?_)
        have h1 := List.mem_takeWhile_imp hy
        rw [hcontra] at h1
        exact absurd h1 (by decide)
      · exact safeB_append (safeB_append (by decide) (escape_safeB _)) (by decide)
    · exact safeB_append (safeB_append (by decide) (escape_safeB _)) (by decide)
  · exact safeB_append (safeB_append (by decide) (escape_safeB _)) (by decide)

theorem W2_no_underscore : ∀ w ∈ W2, ∀ y ∈ w, y ≠ '_' := by decide

theorem formatFragment_safe (s : Str) : safeB (formatFragment s) = true := by
  unfold formatFragment
  dsimp only
  exact linksAux_safe _ _ (bulletsAux_safe _ _ _ (strikeAux_safe _ _
    (italAux_safe '_' W2_no_underscore _ _ _ (italAux_safe '*' W2_no_star _ _ _
    (boldAux_safe _ _ (headAux_safe _ _ _
      (fun y hy => (escape_html_ltFree s y hy).1)))))))

theorem renderSeg_safe (sg : Seg) : safeB (renderSeg sg) = true := by
  cases sg with
  | txt s => exact formatFragment_safe s
  | code s => exact renderCode_safe s

theorem foldr_append_safe : ∀ (l : List Str), (∀ x ∈ l, safeB x = true) →
    safeB (l.foldr (fun a b => a ++ b) []) = true := by
  intro l
  induction l with
  | nil => exact fun _ => rfl
  | cons a as ih =>
    intro h
    exact safeB_append (h a (by simp)) (ih (fun x hx => h x (by simp [hx])))

theorem intercalateStr_ltFree {sep : Str} (hsep : ∀ y ∈ sep, y ≠ '<') :
    ∀ (l : List Str), (∀ x ∈ l, ∀ y ∈ x, y ≠ '<') →
    ∀ y ∈ intercalateStr sep l, y ≠ '<' := by
  intro l
  induction l with
  | nil =>
    intro _ y hy
    simp [intercalateStr] at hy
  | cons x xs ih =>
    intro hl y hy
    cases xs with
    | nil =>
      simp only [intercalateStr] at hy
      exact hl x (by simp) y hy
    | cons x2 xs2 =>
      simp only [intercalateStr] at hy
      rcases List.mem_append.1 hy with h | h
      · rcases List.mem_append.1 h with h2 | h2
        · exact hl x (by simp) y h2
        · exact hsep y h2
      · exact ih (fun a ha => hl a (by simp [ha])) y h

theorem wrap_table_safe (tbl : Str) : safeB (wrap_table tbl) = true := by
  unfold wrap_table
  dsimp only
  split
  · decide
  · refine safeB_append (safeB_append (by decide) ?_) (by decide)
    refine safeB_of_ltFree ?_
    refine intercalateStr_ltFree (by decide) _ ?_
    intro x hx y hy
    obtain ⟨r, -, rfl⟩ := List.mem_map.1 hx
    refine intercalateStr_ltFree (by decide) _ ?_ y hy
    intro z hz w hw
    obtain ⟨p, -, rfl⟩ := List.mem_map.1 hz
    exact (escape_html_ltFree _ w hw).1

theorem tablePassAux_blocks_safe :
    ∀ (fuel : Nat) (units : List (Str × Bool)) (blocks : List Str),
    (∀ b ∈ blocks, safeB b = true) →
    ∀ b ∈ (tablePassAux fuel units blocks).2, safeB b = true := by
  intro fuel
  induction fuel with
  | zero =>
    intro units blocks hb
    simpa [tablePassAux] using hb
  | succ f ih =>
    intro units blocks hb
    cases units with
    | nil => simpa [tablePassAux] using hb
    | cons u rest =>
      rw [tablePassAux]
      split
      · dsimp only
        refine ih _ _ ?_
        intro b hbmem
        rcases List.mem_append.1 hbmem with h | h
        · exact hb b h
        · rw [List.mem_singleton.1 h]
          exact wrap_table_safe _
      · dsimp only
        exact ih _ _ hb

theorem replaceBlocks_safe : ∀ (bs : List Str) (i : Nat) (r : Str),
    (∀ b ∈ bs, safeB b = true) → safeB r = true →
    safeB (replaceBlocks i bs r) = true := by
  intro bs
  induction bs with
  | nil => exact fun i r _ hr => hr
  | cons b bs ih =>
    intro i r hb hr
    rw [replaceBlocks]
    refine ih (i + 1) _ (fun x hx => hb x (by simp [hx])) ?_
    have hph : placeholderStr i =
        '%' :: (str "%TABLEBLOCK" ++ (Nat.repr i).data ++ str "%%") := rfl
    rw [pyReplace, hph]
    exact pyReplaceAux_safe (fun w hw y hy => (W2_no_rbrack w hw y hy).2.2.2)
      (hb b (by simp)) _ _ hr

theorem format_for_telegram_safe (text : Str) : safeB (format_for_telegram text) = true := by
  unfold format_for_telegram
  split
  · rfl
  · dsimp only
    refine replaceBlocks_safe _ 0 _ ?_ ?_
    · show ∀ b ∈ (tablePass text).2, safeB b = true
      unfold tablePass
      dsimp only
      exact tablePassAux_blocks_safe _ _ [] (by simp)
    · refine foldr_append_safe _ ?_
      intro x hx
      obtain ⟨sg, -, rfl⟩ := List.mem_map.1 hx
      exact renderSeg_safe sg


/-- C7: formatter escaping — `escape_html` (applied before every emphasis
rule in the non-code branch, and in every code branch of `renderCode`)
never leaves a raw angle bracket, and consequently neither the code
renderer nor the full `format_for_telegram` pipeline can ever emit the
literal substring `<script>`, for any input. -/
theorem C7_formatter_escaping :
    (∀ s : Str, ∀ y ∈ escape_html s, y ≠ '<' ∧ y ≠ '>') ∧
    (∀ tok : Str, ¬ ((str "<script>") <:+: renderCode tok)) ∧
    (∀ text : Str, ¬ ((str "<script>") <:+: format_for_telegram text)) :=
  ⟨escape_html_ltFree,
   fun tok => safeB_no_script (renderCode_safe tok),
   fun text => safeB_no_script (format_for_telegram_safe text)⟩

end GoogleBot
